import Mathlib

/-!
Verification of the cc_approver configuration/merge engine.

Shallow embedding of `src/cc_approver` (settings.py, validators.py, hook.py,
cli.py, approver.py, optimizer.py).  JSON values are modelled by `JVal`;
Python dicts are association lists with unique keys (first match), Python
exceptions are `Option.none` results, and file systems are explicit
functions passed to the embedded operations.
-/

namespace CcApprover

/-- JSON value as produced by `json.load` (numbers restricted to integers:
no configuration field in the repository uses fractional numbers). -/
inductive JVal where
  | null : JVal
  | bool : Bool → JVal
  | num : Int → JVal
  | str : String → JVal
  | arr : List JVal → JVal
  | obj : List (String × JVal) → JVal

/-- A parsed JSON object body (Python dict): association list, unique keys. -/
abbrev JObj := List (String × JVal)

/-- Python `d.get(key)` / `d[key]` lookup: first binding of the key. -/
def jget : JObj → String → Option JVal
  | [], _ => none
  | (k, v) :: rest, key => if k = key then some v else jget rest key

/-- Python `d.get(key, default)` with default `None`. -/
def jgetd (o : JObj) (key : String) : JVal := (jget o key).getD JVal.null

/-- Python `d[key] = v`: replace the first binding in place, else append. -/
def jset : JObj → String → JVal → JObj
  | [], key, v => [(key, v)]
  | (k, w) :: rest, key, v =>
    if k = key then (key, v) :: rest else (k, w) :: jset rest key v

/-- Python `d.setdefault(key, v)`: returns the value at the key (inserting
`v` when absent) together with the possibly-extended dict. -/
def jsetdefault (o : JObj) (key : String) (v : JVal) : JVal × JObj :=
  match jget o key with
  | some w => (w, o)
  | none => (v, o ++ [(key, v)])

/-- Python truthiness of a JSON value. -/
def pyTruthy : JVal → Bool
  | .null => false
  | .bool b => b
  | .num n => n != 0
  | .str s => s != ""
  | .arr l => !l.isEmpty
  | .obj o => !o.isEmpty

/-- Python `a or b` on JSON values. -/
def pyOr (a b : JVal) : JVal := if pyTruthy a then a else b

/-- Escape for Python `repr` of a string (backslash and quote; control
characters are left as-is, which cannot affect any marker-substring test
performed on the result). -/
def pyEscape (s : String) : String :=
  String.mk (s.data.foldr
    (fun c acc =>
      if c = '\\' then '\\' :: '\\' :: acc
      else if c = '\'' then '\\' :: '\'' :: acc
      else c :: acc) [])

mutual
/-- Python `repr` of a JSON value (single-quote convention). -/
def pyRepr : JVal → String
  | .null => "None"
  | .bool true => "True"
  | .bool false => "False"
  | .num n => toString n
  | .str s => "'" ++ pyEscape s ++ "'"
  | .arr l => "[" ++ pyReprList l ++ "]"
  | .obj o => "\x7b" ++ pyReprObj o ++ "\x7d"

/-- Comma-joined reprs of list elements. -/
def pyReprList : List JVal → String
  | [] => ""
  | [v] => pyRepr v
  | v :: rest => pyRepr v ++ ", " ++ pyReprList rest

/-- Comma-joined `repr(key): repr(value)` pairs of a dict. -/
def pyReprObj : List (String × JVal) → String
  | [] => ""
  | [(k, v)] => "'" ++ pyEscape k ++ "': " ++ pyRepr v
  | (k, v) :: rest => "'" ++ pyEscape k ++ "': " ++ pyRepr v ++ ", " ++ pyReprObj rest
end

/-- Python `str()` of a JSON value: a string is itself, anything else its repr. -/
def pyStr : JVal → String
  | .str s => s
  | v => pyRepr v

/-- `needle.isPrefixOf hay` on character lists. -/
def listHasPrefix (needle hay : List Char) : Bool :=
  match needle, hay with
  | [], _ => true
  | _ :: _, [] => false
  | c :: ns, d :: hs => c = d && listHasPrefix ns hs

/-- Substring occurrence on character lists (Python `needle in hay`). -/
def listHasInfix (needle : List Char) : List Char → Bool
  | [] => needle.isEmpty
  | c :: rest => listHasPrefix needle (c :: rest) || listHasInfix needle rest

/-- Python `needle in hay` for strings. -/
def strContains (needle hay : String) : Bool := listHasInfix needle.data hay.data

/-- Python default whitespace for `str.strip` (ASCII range; Python also
strips some exotic Unicode whitespace no configuration value contains). -/
def isPySpace (c : Char) : Bool :=
  c = ' ' || c = '\t' || c = '\n' || c = '\x0d' || c = '\x0b' || c = '\x0c'

/-- Python `str.strip()`. -/
def pyStrip (s : String) : String :=
  String.mk (((s.data.dropWhile isPySpace).reverse.dropWhile isPySpace).reverse)

/-- Python `str.lower()` on one character (ASCII; agrees with Python on
every character appearing in a decision label). -/
def pyLowerChar (c : Char) : Char :=
  if 'A' ≤ c ∧ c ≤ 'Z' then Char.ofNat (c.toNat + 32) else c

/-- Python `str.lower()`. -/
def pyLower (s : String) : String := String.mk (s.data.map pyLowerChar)

/-! ### constants.py -/

def DEFAULT_MODEL : String := "openrouter/google/gemini-2.5-flash-lite"
def DEFAULT_MATCHER : String := "Bash|Edit|Write"
def DEFAULT_TIMEOUT : Int := 60
def MAX_REASON_LENGTH : Nat := 500
def DEFAULT_HISTORY_BYTES : Int := 0
def VALID_DECISIONS : List String := ["allow", "deny", "ask"]
def DEFAULT_DECISION : String := "ask"
def DEFAULT_COMPILED_PATH : String := "$CLAUDE_PROJECT_DIR/.claude/models/approver.compiled.json"
def HOOK_EVENT_NAME : String := "PreToolUse"

/-! ### validators.py -/

/-- `normalize_decision` from validators.py: trim, lower-case, and fall back
to the safe default for anything outside the three valid decisions. -/
def normalize_decision (decision : Option String) : String :=
  if VALID_DECISIONS.contains (pyLower (pyStrip (decision.getD ""))) then
    pyLower (pyStrip (decision.getD ""))
  else DEFAULT_DECISION

/-- `truncate_reason` from validators.py. -/
def truncate_reason (reason : Option String) : String :=
  String.mk ((reason.getD "").data.take MAX_REASON_LENGTH)

/-! ### settings.py -/

/-- Identifies one of the three canonical settings paths returned by
`settings_paths`: project-local `settings.local.json`, project-shared
`settings.json`, user-global `~/.claude/settings.json`. -/
inductive PathId where
  | localPath : PathId
  | sharedPath : PathId
  | globalPath : PathId
deriving DecidableEq

/-- `load_settings_chain` from settings.py.  The three arguments are the
`_read_json` parse results of the three canonical paths in precedence
order (`none` models a missing or unparsable file).  The loop returns the
first result that is a dict together with its path; the fallback is an
empty dict paired with the project-shared path. -/
def load_settings_chain (localFile sharedFile globalFile : Option JVal) : JObj × PathId :=
  match localFile with
  | some (JVal.obj o) => (o, PathId.localPath)
  | _ =>
    match sharedFile with
    | some (JVal.obj o) => (o, PathId.sharedPath)
    | _ =>
      match globalFile with
      | some (JVal.obj o) => (o, PathId.globalPath)
      | _ => ([], PathId.sharedPath)

/-- Python `isinstance(d, dict)` on a `_read_json` result. -/
def isDictOpt : Option JVal → Bool
  | some (JVal.obj _) => true
  | _ => false

/-- `_resolve` from settings.py: substitute the project-root placeholder. -/
def _resolve (s : String) (root : String) : String :=
  s.replace "$CLAUDE_PROJECT_DIR" root

/-- Python `int(x)` on a JSON value: `none` models a raised exception.
(For strings, Python also accepts surrounding whitespace; no claim depends
on that case.) -/
def pyIntOpt : JVal → Option Int
  | .num n => some n
  | .bool b => some (if b then 1 else 0)
  | .str s => s.toInt?
  | _ => none

/-- The resolved view returned by `get_dspy_config`. -/
structure DspyConfig where
  model : JVal
  historyBytes : Int
  compiledModelPath : String
  promptModel : JVal
  evalModel : JVal
  reflectionModel : JVal

/-- `get_dspy_config` from settings.py.  `none` models a raised exception
(`dspyApprover` a truthy non-dict, `int()` failing on `historyBytes`, or
`.replace` on a truthy non-string `compiledModelPath`). -/
def get_dspy_config (settings : JObj) (root : String) : Option DspyConfig :=
  match pyOr (jgetd settings "dspyApprover") (JVal.obj []) with
  | .obj cfg =>
    let model := pyOr (jgetd cfg "model") (JVal.str DEFAULT_MODEL)
    match pyIntOpt (pyOr (jgetd cfg "historyBytes") (JVal.num DEFAULT_HISTORY_BYTES)) with
    | none => none
    | some hbytes =>
      match pyOr (jgetd cfg "compiledModelPath") (JVal.str DEFAULT_COMPILED_PATH) with
      | .str cmpRaw =>
        some { model := model, historyBytes := hbytes,
               compiledModelPath := _resolve cmpRaw root,
               promptModel := jgetd cfg "promptModel",
               evalModel := jgetd cfg "evalModel",
               reflectionModel := jgetd cfg "reflectionModel" }
      | _ => none
  | _ => none

/-- `ensure_policy_text` from settings.py.  `none` models the exception
raised when an existing `policy` section is not a dict. -/
def ensure_policy_text (settings : JObj) (default_text : String) : Option JObj :=
  let pr := jsetdefault settings "policy" (JVal.obj [])
  match pr.1 with
  | .obj po =>
    let po2 :=
      match jget po "approverInstructions" with
      | some (.str _) => po
      | _ => jset po "approverInstructions" (JVal.str default_text)
    some (jset pr.2 "policy" (JVal.obj po2))
  | _ => none

/-- `ensure_dspy_config` from settings.py (first-write-wins via `setdefault`
for the five base fields, unconditional overwrite for the three optional
model fields when the caller passes a non-null value). -/
def ensure_dspy_config (settings : JObj) (model : String) (history_bytes : Int)
    (compiled_path : String) (optimizer auto : String)
    (prompt_model eval_model reflection_model : Option String) : Option JObj :=
  let cr := jsetdefault settings "dspyApprover" (JVal.obj [])
  match cr.1 with
  | .obj co =>
    let c1 := (jsetdefault co "model" (JVal.str model)).2
    let c2 := (jsetdefault c1 "historyBytes" (JVal.num history_bytes)).2
    let c3 := (jsetdefault c2 "compiledModelPath" (JVal.str compiled_path)).2
    let c4 := (jsetdefault c3 "optimizer" (JVal.str optimizer)).2
    let c5 := (jsetdefault c4 "auto" (JVal.str auto)).2
    let c6 := match prompt_model with | some pm => jset c5 "promptModel" (JVal.str pm) | none => c5
    let c7 := match eval_model with | some em => jset c6 "evalModel" (JVal.str em) | none => c6
    let c8 := match reflection_model with | some rm => jset c7 "reflectionModel" (JVal.str rm) | none => c7
    some (jset cr.2 "dspyApprover" (JVal.obj c8))
  | _ => none

/-- The identifying marker substring of this tool's own hook entry. -/
def MARKER : String := "cc-approver"

/-- Python iteration over a truthy value (`for x in v`): a list yields its
elements, a string its characters, a dict its keys; anything else raises
(`none`). -/
def pyIterElems : JVal → Option (List JVal)
  | .arr l => some l
  | .str s => some (s.data.map (fun c => JVal.str (String.mk [c])))
  | .obj o => some (o.map (fun kv => JVal.str kv.1))
  | _ => none

/-- Inner loop of `merge_pretooluse_hook`: find the first dict spec whose
`command` stringifies to something containing the marker and update its
`command`/`timeout` in place; `none` when no spec matches. -/
def specsUpdateFirst (command : String) (timeout : Int) : List JVal → Option (List JVal)
  | [] => none
  | JVal.obj so :: rest =>
    if strContains MARKER (pyStr ((jget so "command").getD (JVal.str ""))) then
      some (JVal.obj (jset (jset so "command" (JVal.str command)) "timeout" (JVal.num timeout)) :: rest)
    else (specsUpdateFirst command timeout rest).map (fun r => JVal.obj so :: r)
  | spec :: rest => (specsUpdateFirst command timeout rest).map (fun r => spec :: r)

/-- Result of scanning the `PreToolUse` group list. -/
inductive ScanResult where
  | raise : ScanResult
  | found : List JVal → ScanResult
  | notFound : ScanResult

/-- Outer loop of `merge_pretooluse_hook` over the `PreToolUse` groups:
non-dict groups are skipped; for a dict group, `h.get("hooks") or []` is
iterated (a truthy non-iterable raises); the first group holding a marker
spec gets its `matcher` and that spec's `command`/`timeout` updated. -/
def scanGroups (command matcher : String) (timeout : Int) : List JVal → ScanResult
  | [] => ScanResult.notFound
  | JVal.obj ho :: rest =>
    match pyOr (jgetd ho "hooks") (JVal.arr []) with
    | .arr specs =>
      match specsUpdateFirst command timeout specs with
      | some specs2 =>
        ScanResult.found
          (JVal.obj (jset (jset ho "matcher" (JVal.str matcher)) "hooks" (JVal.arr specs2)) :: rest)
      | none =>
        match scanGroups command matcher timeout rest with
        | ScanResult.found l => ScanResult.found (JVal.obj ho :: l)
        | r => r
    | .str _ =>
      -- iterating a truthy string yields characters, never a dict spec
      match scanGroups command matcher timeout rest with
      | ScanResult.found l => ScanResult.found (JVal.obj ho :: l)
      | r => r
    | .obj _ =>
      -- iterating a truthy dict yields its keys, never a dict spec
      match scanGroups command matcher timeout rest with
      | ScanResult.found l => ScanResult.found (JVal.obj ho :: l)
      | r => r
    | _ => ScanResult.raise
  | h :: rest =>
    match scanGroups command matcher timeout rest with
    | ScanResult.found l => ScanResult.found (h :: l)
    | r => r

/-- The group appended by `merge_pretooluse_hook` when no existing group
holds the marker. -/
def newHookGroup (command matcher : String) (timeout : Int) : JVal :=
  JVal.obj [("matcher", JVal.str matcher),
    ("hooks", JVal.arr [JVal.obj
      [("type", JVal.str "command"), ("command", JVal.str command), ("timeout", JVal.num timeout)]])]

/-- `merge_pretooluse_hook` from settings.py.  `none` models a raised
exception (an existing `hooks` section that is not a dict, a `PreToolUse`
value that is not a list, or a group whose truthy `hooks` field is not
iterable). -/
def merge_pretooluse_hook (settings : JObj) (command matcher : String)
    (timeout : Int) : Option JObj :=
  let hr := jsetdefault settings "hooks" (JVal.obj [])
  match hr.1 with
  | .obj ho =>
    let lr := jsetdefault ho "PreToolUse" (JVal.arr [])
    match lr.1 with
    | .arr lst =>
      match scanGroups command matcher timeout lst with
      | ScanResult.raise => none
      | ScanResult.found lst2 =>
        some (jset hr.2 "hooks" (JVal.obj (jset lr.2 "PreToolUse" (JVal.arr lst2))))
      | ScanResult.notFound =>
        some (jset hr.2 "hooks" (JVal.obj (jset lr.2 "PreToolUse"
          (JVal.arr (lst ++ [newHookGroup command matcher timeout])))))
    | _ => none
  | _ => none

/-- Does a spec entry carry this tool's marker: a dict whose stringified
`command` contains the marker substring (the test `merge_pretooluse_hook`
applies to each inner spec). -/
def specIsMarker (spec : JVal) : Bool :=
  match spec with
  | .obj so => strContains MARKER (pyStr ((jget so "command").getD (JVal.str "")))
  | _ => false

/-- Would scanning this group raise: a dict group whose `hooks` field is
truthy but not iterable. -/
def groupRaises (h : JVal) : Bool :=
  match h with
  | .obj ho =>
    match pyOr (jgetd ho "hooks") (JVal.arr []) with
    | .arr _ => false
    | .str _ => false
    | .obj _ => false
    | _ => true
  | _ => false

/-- Does a group contain a marker spec (the property `merge_pretooluse_hook`
deduplicates on). -/
def groupIsMarker (h : JVal) : Bool :=
  match h with
  | .obj ho =>
    match pyOr (jgetd ho "hooks") (JVal.arr []) with
    | .arr specs => specs.any specIsMarker
    | _ => false
  | _ => false

/-- The in-place update `merge_pretooluse_hook` performs on the group in
which it finds the marker. -/
def updGroup (command matcher : String) (timeout : Int) (h : JVal) : JVal :=
  match h with
  | .obj ho =>
    match pyOr (jgetd ho "hooks") (JVal.arr []) with
    | .arr specs =>
      match specsUpdateFirst command timeout specs with
      | some specs2 =>
        JVal.obj (jset (jset ho "matcher" (JVal.str matcher)) "hooks" (JVal.arr specs2))
      | none => h
    | _ => h
  | _ => h

/-- A group holds a registration's values: its `matcher` field and, in its
first marker spec, the `command` and `timeout` fields. -/
def groupHolds (g : JVal) (command matcher : String) (timeout : Int) : Prop :=
  ∃ ho, g = JVal.obj ho ∧ jget ho "matcher" = some (JVal.str matcher) ∧
    ∃ specs, pyOr (jgetd ho "hooks") (JVal.arr []) = JVal.arr specs ∧
      ∃ so, specs.find? specIsMarker = some (JVal.obj so) ∧
        jget so "command" = some (JVal.str command) ∧
        jget so "timeout" = some (JVal.num timeout)

/-- The `PreToolUse` group list `merge_pretooluse_hook` will operate on;
`none` when the merge would raise before reaching the scan (a non-dict
`hooks` section or a non-list `PreToolUse` value). -/
def getPreToolUse (settings : JObj) : Option (List JVal) :=
  match jget settings "hooks" with
  | none => some []
  | some (JVal.obj ho) =>
    match jget ho "PreToolUse" with
    | none => some []
    | some (JVal.arr l) => some l
    | some _ => none
  | some _ => none

/-- The write-back `merge_pretooluse_hook` performs: store a new group list
under `hooks.PreToolUse` (inserting the sections `setdefault` would). -/
def setPreToolUse (settings : JObj) (l : List JVal) : JObj :=
  let hr := jsetdefault settings "hooks" (JVal.obj [])
  match hr.1 with
  | .obj ho =>
    jset hr.2 "hooks"
      (JVal.obj (jset (jsetdefault ho "PreToolUse" (JVal.arr [])).2 "PreToolUse" (JVal.arr l)))
  | _ => settings

/-- One `merge_pretooluse_hook` registration request. -/
structure MergeCall where
  command : String
  matcher : String
  timeout : Int
deriving DecidableEq

/-- Repeated registration: `merge_pretooluse_hook` applied once per call,
left to right (an exception aborts the sequence). -/
def iterMerge (settings : JObj) : List MergeCall → Option JObj
  | [] => some settings
  | call :: rest =>
    match merge_pretooluse_hook settings call.command call.matcher call.timeout with
    | none => none
    | some s => iterMerge s rest

/-- The settings transformation of `_run_init` from cli.py: ensure the
policy text, ensure the dspy section (optimizer "mipro", auto "light" as
passed there), then merge the hook group. -/
def runInitSettings (settings : JObj) (policy_text model : String) (history_bytes : Int)
    (compiled_path : String) (prompt_model eval_model reflection_model : Option String)
    (command matcher : String) (timeout : Int) : Option JObj :=
  (ensure_policy_text settings policy_text).bind fun s1 =>
    (ensure_dspy_config s1 model history_bytes compiled_path "mipro" "light"
        prompt_model eval_model reflection_model).bind fun s2 =>
      merge_pretooluse_hook s2 command matcher timeout

/-! ### UTF-8 decoding (Python `bytes.decode("utf-8", errors)`) -/

/-- Classification of a UTF-8 start byte: a complete ASCII code point, the
head of a multi-byte sequence (accumulated bits, continuation bytes still
needed, admissible range of the next byte), or an invalid start byte. -/
inductive Utf8Start where
  | ascii : Nat → Utf8Start
  | seq : Nat → Nat → Nat → Nat → Utf8Start
  | err : Utf8Start

/-- Examine a UTF-8 start byte.  The tightened second-byte ranges for
`E0`/`ED`/`F0`/`F4` reject overlong forms, surrogates and code points
beyond U+10FFFF, as CPython's decoder does. -/
def utf8Start (b : Nat) : Utf8Start :=
  if b < 0x80 then Utf8Start.ascii b
  else if 0xC2 ≤ b ∧ b ≤ 0xDF then Utf8Start.seq (b - 0xC0) 1 0x80 0xBF
  else if 0xE0 ≤ b ∧ b ≤ 0xEF then
    Utf8Start.seq (b - 0xE0) 2 (if b = 0xE0 then 0xA0 else 0x80) (if b = 0xED then 0x9F else 0xBF)
  else if 0xF0 ≤ b ∧ b ≤ 0xF4 then
    Utf8Start.seq (b - 0xF0) 3 (if b = 0xF0 then 0x90 else 0x80) (if b = 0xF4 then 0x8F else 0xBF)
  else Utf8Start.err

/-- Incremental UTF-8 decoder (CPython semantics: an error consumes the
maximal subpart of a valid sequence and the offending byte is re-examined
as a start byte).  On a decode error, `repl = true` (Python
`errors="replace"`) emits U+FFFD, `repl = false` (Python `errors="ignore"`)
emits nothing.  The optional state carries a pending multi-byte sequence. -/
def utf8DecodeAux (repl : Bool) : List Nat → Option (Nat × Nat × Nat × Nat) → List Nat
  | [], none => []
  | [], some _ => if repl then [0xFFFD] else []
  | b :: rest, some (acc, need, lo, hi) =>
    if lo ≤ b ∧ b ≤ hi then
      if need ≤ 1 then (acc * 0x40 + (b - 0x80)) :: utf8DecodeAux repl rest none
      else utf8DecodeAux repl rest (some (acc * 0x40 + (b - 0x80), need - 1, 0x80, 0xBF))
    else
      (if repl then [0xFFFD] else []) ++
      (match utf8Start b with
       | Utf8Start.ascii cp => cp :: utf8DecodeAux repl rest none
       | Utf8Start.seq acc2 need2 lo2 hi2 => utf8DecodeAux repl rest (some (acc2, need2, lo2, hi2))
       | Utf8Start.err => (if repl then [0xFFFD] else []) ++ utf8DecodeAux repl rest none)
  | b :: rest, none =>
    match utf8Start b with
    | Utf8Start.ascii cp => cp :: utf8DecodeAux repl rest none
    | Utf8Start.seq acc need lo hi => utf8DecodeAux repl rest (some (acc, need, lo, hi))
    | Utf8Start.err => (if repl then [0xFFFD] else []) ++ utf8DecodeAux repl rest none

/-- Python `bytes.decode("utf-8", "ignore")` to code points. -/
def pyDecodeUtf8Ignore (bytes : List Nat) : List Nat := utf8DecodeAux false bytes none

/-- Python `bytes.decode("utf-8", "replace")` to code points. -/
def pyDecodeUtf8Replace (bytes : List Nat) : List Nat := utf8DecodeAux true bytes none

/-- Python `l[-n:]` for `n > 0`: the last `min n l.length` elements. -/
def takeLast {α : Type} (n : Nat) (l : List α) : List α := l.drop (l.length - n)

/-! ### hook.py / cli.py -/

/-- `tail` from hook.py (and cli.py, which adds an `isinstance(n, int)`
check that always passes for an integer argument): the file system is an
explicit map from path to byte content, `none` modelling a missing or
unreadable file.  The result is the decoded code-point sequence. -/
def tail (fs : String → Option (List Nat)) (path : String) (n : Int) : List Nat :=
  if path = "" ∨ n ≤ 0 then []
  else
    match fs path with
    | none => []
    | some bytes =>
      takeLast n.toNat (pyDecodeUtf8Ignore (bytes.drop (bytes.length - n.toNat)))

/-- Modelled from the spec, for comparison with `tail` only: the spec's §4.4
step 4 asks for lenient decoding with "invalid byte sequences replaced";
this is `tail` with `errors="replace"` instead of the code's
`errors="ignore"`. -/
def tailSpecReplace (fs : String → Option (List Nat)) (path : String) (n : Int) : List Nat :=
  if path = "" ∨ n ≤ 0 then []
  else
    match fs path with
    | none => []
    | some bytes =>
      takeLast n.toNat (pyDecodeUtf8Replace (bytes.drop (bytes.length - n.toNat)))

/-! ### approver.py -/

/-- Outcome of probing one candidate path in `try_load_compiled`:
the path does not exist, it exists but `prog.load` raises
(`FileNotFoundError`/`json.JSONDecodeError`), or it loads this program. -/
inductive LoadResult (α : Type) where
  | missing : LoadResult α
  | corrupt : LoadResult α
  | ok : α → LoadResult α
deriving DecidableEq

/-- `try_load_compiled` from approver.py: return the program loaded from
the first candidate that exists and loads; any swallowed failure moves on
to the next candidate; `none` when no candidate loads. -/
def try_load_compiled {α : Type} (fs : String → LoadResult α) : List String → Option α
  | [] => none
  | p :: rest =>
    match fs p with
    | LoadResult.ok prog => some prog
    | _ => try_load_compiled fs rest

/-- The candidate list built by `cmd_hook` in cli.py (and `main` in
hook.py): configured compiled path, project-local default, user-global
default. -/
def hookCandidates (compiledModelPath projRoot homeDir : String) : List String :=
  [compiledModelPath,
   projRoot ++ "/.claude/models/approver.compiled.json",
   homeDir ++ "/.claude/models/approver.compiled.json"]

/-! ### optimizer.py -/

/-- Escape for JSON string serialization (backslash and quote; control
characters are left as-is — no claim inspects serialized control chars). -/
def jsonEscape (s : String) : String :=
  String.mk (s.data.foldr
    (fun c acc =>
      if c = '\\' then '\\' :: '\\' :: acc
      else if c = '"' then '\\' :: '"' :: acc
      else c :: acc) [])

mutual
/-- Python `json.dumps(v, ensure_ascii=False)` with default separators. -/
def pyJsonDumps : JVal → String
  | .null => "null"
  | .bool true => "true"
  | .bool false => "false"
  | .num n => toString n
  | .str s => "\"" ++ jsonEscape s ++ "\""
  | .arr l => "[" ++ pyJsonDumpsList l ++ "]"
  | .obj o => "\x7b" ++ pyJsonDumpsObj o ++ "\x7d"

/-- Comma-joined JSON dumps of list elements. -/
def pyJsonDumpsList : List JVal → String
  | [] => ""
  | [v] => pyJsonDumps v
  | v :: rest => pyJsonDumps v ++ ", " ++ pyJsonDumpsList rest

/-- Comma-joined JSON dumps of dict entries. -/
def pyJsonDumpsObj : List (String × JVal) → String
  | [] => ""
  | [(k, v)] => "\"" ++ jsonEscape k ++ "\": " ++ pyJsonDumps v
  | (k, v) :: rest => "\"" ++ jsonEscape k ++ "\": " ++ pyJsonDumps v ++ ", " ++ pyJsonDumpsObj rest
end

/-- `_normalize_tool_input` from optimizer.py. -/
def _normalize_tool_input (o : JObj) : String :=
  match jget o "tool_input_json" with
  | some (.str s) => s
  | _ =>
    match jget o "tool_input" with
    | some (JVal.obj fields) => pyJsonDumps (JVal.obj fields)
    | some (JVal.arr elems) => pyJsonDumps (JVal.arr elems)
    | _ =>
      match jget o "tool_input_preview" with
      | some (.str s) => s
      | _ => "\x7b\x7d"

/-- `_read_history` from optimizer.py: an inline `history_tail` wins; else,
with a positive byte budget and a string `transcript_path`, the same
byte-tail read as `tail` (decoded code points re-packed as a string). -/
def _read_history (o : JObj) (history_bytes : Int) (fs : String → Option (List Nat)) : JVal :=
  let hist := pyOr (jgetd o "history_tail") (JVal.str "")
  if pyTruthy hist ∨ history_bytes ≤ 0 then hist
  else
    match jget o "transcript_path" with
    | some (.str path) =>
      match fs path with
      | none => JVal.str ""
      | some bytes =>
        JVal.str (String.mk ((takeLast history_bytes.toNat
          (pyDecodeUtf8Ignore (bytes.drop (bytes.length - history_bytes.toNat)))).map Char.ofNat))
    | _ => JVal.str ""

/-- A training example as built by `read_jsonl` (the normalized label is
stored in `decision`, mirroring the `dspy.Example` field). -/
structure TrainExample where
  policy : String
  tool : JVal
  tool_input_json : String
  history_tail : JVal
  decision : String

/-- `_normalize` from optimizer.py.  `none` models the exception raised by
`.strip()` when the label/decision field holds a truthy non-string. -/
def _normalize (o : JObj) (policy : String) (history_bytes : Int)
    (fs : String → Option (List Nat)) : Option TrainExample :=
  let tool := pyOr (jgetd o "tool_name") (pyOr (jgetd o "tool") (JVal.str ""))
  let ti := _normalize_tool_input o
  let hist := _read_history o history_bytes fs
  match pyOr (jgetd o "label") (pyOr (jgetd o "decision") (JVal.str "")) with
  | .str s =>
    some { policy := policy, tool := tool, tool_input_json := ti,
           history_tail := hist, decision := pyLower (pyStrip s) }
  | _ => none

/-- One line of a JSONL file after `line.strip()` and `json.loads`:
stripped-empty, not valid JSON, or parsed to a value. -/
inductive PyLine where
  | blank : PyLine
  | bad : PyLine
  | val : JVal → PyLine

/-- `read_jsonl` from optimizer.py: blank and unparsable lines are skipped,
parsed records are normalized, and records whose normalized label is not a
valid decision are excluded.  `none` models a raised exception (a parsed
line that is not a dict, or a raising `_normalize`). -/
def read_jsonl (lines : List PyLine) (policy : String) (history_bytes : Int)
    (fs : String → Option (List Nat)) : Option (List TrainExample) :=
  match lines with
  | [] => some []
  | PyLine.blank :: rest => read_jsonl rest policy history_bytes fs
  | PyLine.bad :: rest => read_jsonl rest policy history_bytes fs
  | PyLine.val (JVal.obj o) :: rest =>
    match _normalize (o) policy history_bytes fs with
    | none => none
    | some ex =>
      if VALID_DECISIONS.contains ex.decision then
        (read_jsonl rest policy history_bytes fs).map (fun l => ex :: l)
      else read_jsonl rest policy history_bytes fs
  | PyLine.val _ :: _ => none

/-! ### Merged policy (spec-modelled) -/

/-- Modelled from the spec: `get_merged_policy` (and its companion
`load_and_merge_settings`) is imported by hook.py and the test suite but
its definition is not under src/.  Following §4.2 `resolve_merged_policy`:
`globalText` is the user-global configuration's `policy.globalInstructions`
(fallback `approverInstructions`), `localText` is the local configuration's
`policy.localInstructions` (fallback `approverInstructions`), and
`strategy` is the local `policy.mergeStrategy` (default `append`).  With
both sides present, `append` labels and concatenates global before local,
`prepend` local before global, `replace` keeps the local text alone; one
side present is returned unlabeled; neither side yields the empty string.
Header texts follow the repository's test suite. -/
def get_merged_policy (globalText localText strategy : String) : String :=
  if globalText = "" ∧ localText = "" then ""
  else if localText = "" then globalText
  else if globalText = "" then localText
  else if strategy = "replace" then localText
  else if strategy = "prepend" then
    "LOCAL RULES (HIGHEST PRIORITY):\n" ++ localText ++ "\n\nGLOBAL RULES:\n" ++ globalText
  else
    "GLOBAL RULES:\n" ++ globalText ++ "\n\nPROJECT-SPECIFIC RULES:\n" ++ localText

/-! ## Helper lemmas on the dict operations -/

theorem jget_jset_self (o : JObj) (k : String) (v : JVal) : jget (jset o k v) k = some v := by
  induction o with
  | nil => simp [jget, jset]
  | cons kv rest ih =>
    by_cases h : kv.1 = k
    · simp [jset, h, jget]
    · simp [jset, h, jget, ih]

theorem jget_jset_ne (o : JObj) (k k' : String) (v : JVal) (h : k' ≠ k) :
    jget (jset o k v) k' = jget o k' := by
  induction o with
  | nil => simp [jget, jset, Ne.symm h]
  | cons kv rest ih =>
    by_cases hk : kv.1 = k
    · have h2 : ¬kv.1 = k' := by rw [hk]; exact Ne.symm h
      simp [jset, hk, jget, Ne.symm h, h2]
    · simp only [jset, if_neg hk, jget]
      by_cases hk' : kv.1 = k'
      · simp [hk']
      · simp [hk', ih]

theorem jset_jset_self (o : JObj) (k : String) (v w : JVal) :
    jset (jset o k v) k w = jset o k w := by
  induction o with
  | nil => simp [jset]
  | cons kv rest ih =>
    by_cases h : kv.1 = k
    · simp [jset, h]
    · simp [jset, h, ih]

theorem jget_append_single_ne (o : JObj) (k k' : String) (v : JVal) (h : k' ≠ k) :
    jget (o ++ [(k, v)]) k' = jget o k' := by
  induction o with
  | nil => simp [jget, Ne.symm h]
  | cons kv rest ih =>
    by_cases hk : kv.1 = k'
    · simp [jget, hk]
    · simp [jget, hk, ih]

theorem jsetdefault_of_get (o : JObj) (k : String) (v w : JVal) (h : jget o k = some w) :
    jsetdefault o k v = (w, o) := by
  simp [jsetdefault, h]

theorem jsetdefault_of_none (o : JObj) (k : String) (v : JVal) (h : jget o k = none) :
    jsetdefault o k v = (v, o ++ [(k, v)]) := by
  simp [jsetdefault, h]

theorem jget_jsetdefault_snd_ne (o : JObj) (k k' : String) (v : JVal) (h : k' ≠ k) :
    jget (jsetdefault o k v).2 k' = jget o k' := by
  unfold jsetdefault
  cases hg : jget o k with
  | some w => rfl
  | none => exact jget_append_single_ne o k k' v h

theorem jget_jsetdefault_fst (o : JObj) (k : String) (v : JVal) :
    jget (jsetdefault o k v).2 k = some (jsetdefault o k v).1 := by
  unfold jsetdefault
  cases hg : jget o k with
  | some w => simpa using hg
  | none =>
    simp only
    induction o with
    | nil => simp [jget]
    | cons kv rest ih =>
      by_cases hk : kv.1 = k
      · simp [jget, hk] at hg
      · simp only [jget, hk, if_false, List.cons_append] at *
        exact ih hg

/-! ## C4: decision normalization -/

/-- C4: `normalize_decision` is total and fail-safe: every input maps into
\x7ballow, deny, ask\x7d, only a trimmed-lower-cased "allow" maps to "allow",
and the five sample inputs normalize as the spec states. -/
theorem normalize_decision_total_failsafe :
    (∀ d : Option String,
      normalize_decision d = "allow" ∨ normalize_decision d = "deny" ∨
        normalize_decision d = "ask") ∧
    (∀ d : Option String, normalize_decision d = "allow" → pyLower (pyStrip (d.getD "")) = "allow") ∧
    normalize_decision (some "ALLOW") = "allow" ∧
    normalize_decision (some "Deny") = "deny" ∧
    normalize_decision (some "") = "ask" ∧
    normalize_decision (some "maybe") = "ask" ∧
    normalize_decision (some "ask") = "ask" ∧
    normalize_decision none = "ask" := by
  refine ⟨?_, ?_, by decide, by decide, by decide, by decide, by decide, by decide⟩
  · intro d
    unfold normalize_decision
    by_cases h : VALID_DECISIONS.contains (pyLower (pyStrip (d.getD ""))) = true
    · rw [if_pos h]
      have hm : pyLower (pyStrip (d.getD "")) ∈ VALID_DECISIONS := by
        simpa [List.contains] using h
      simp only [VALID_DECISIONS, List.mem_cons, List.mem_singleton] at hm
      tauto
    · rw [if_neg h]
      right; right; rfl
  · intro d h
    unfold normalize_decision at h
    by_cases hc : VALID_DECISIONS.contains (pyLower (pyStrip (d.getD ""))) = true
    · rw [if_pos hc] at h; exact h
    · rw [if_neg hc] at h; exact absurd h (by decide)

/-- Closed instance of the hypothesis-bearing conjunct of C4. -/
theorem normalize_decision_total_failsafe_witness :
    pyLower (pyStrip ((some " ALLOW " : Option String).getD "")) = "allow" :=
  normalize_decision_total_failsafe.2.1 (some " ALLOW ") (by decide)

/-! ## C2: merged-policy resolver (spec-modelled) -/

/-- C2: with both sides present, strategy `append` (also the default for an
absent/unrecognized strategy) places the global text before the local text,
`prepend` places the local text before the global text, and `replace`
returns exactly the local text; one present side is returned unlabeled and
two absent sides give the empty string. -/
theorem get_merged_policy_strategies :
    (∀ G L : String, G ≠ "" → L ≠ "" →
      (∃ pre mid, get_merged_policy G L "append" = pre ++ (G ++ (mid ++ L))) ∧
      get_merged_policy G L "" = get_merged_policy G L "append" ∧
      (∃ pre mid, get_merged_policy G L "prepend" = pre ++ (L ++ (mid ++ G))) ∧
      get_merged_policy G L "replace" = L) ∧
    (∀ G strat, G ≠ "" → get_merged_policy G "" strat = G) ∧
    (∀ L strat, L ≠ "" → get_merged_policy "" L strat = L) ∧
    (∀ strat, get_merged_policy "" "" strat = "") := by
  refine ⟨?_, ?_, ?_, ?_⟩
  · intro G L hG hL
    refine ⟨⟨"GLOBAL RULES:\n", "\n\nPROJECT-SPECIFIC RULES:\n", ?_⟩, ?_,
      ⟨"LOCAL RULES (HIGHEST PRIORITY):\n", "\n\nGLOBAL RULES:\n", ?_⟩, ?_⟩
    · simp [get_merged_policy, hG, hL, String.append_assoc]
    · simp [get_merged_policy, hG, hL]
    · simp [get_merged_policy, hG, hL, String.append_assoc]
    · simp [get_merged_policy, hG, hL]
  · intro G strat hG
    simp [get_merged_policy, hG]
  · intro L strat hL
    simp [get_merged_policy, hL]
  · intro strat
    simp [get_merged_policy]

/-- Closed instance of C2 at the spec's sample texts. -/
theorem get_merged_policy_strategies_witness :
    get_merged_policy "G" "L" "replace" = "L" ∧
    get_merged_policy "G" "" "append" = "G" ∧
    get_merged_policy "" "L" "append" = "L" :=
  ⟨((get_merged_policy_strategies.1 "G" "L" (by decide) (by decide)).2.2.2),
   get_merged_policy_strategies.2.1 "G" "append" (by decide),
   get_merged_policy_strategies.2.2.1 "L" "append" (by decide)⟩

/-! ## C6: history tail -/

/-- C6 counterexample: the claim's decode mode is wrong for the code.  On a
file holding bytes `A 0xFF B` with budget 3, decoding with invalid byte
sequences replaced (the claim's wording, `tailSpecReplace`) yields
`A U+FFFD B`, but the code (`errors="ignore"`) drops the invalid byte and
`tail` returns `A B`. -/
theorem tail_replace_counterexample :
    tail (fun p => if p = "t" then some [65, 255, 66] else none) "t" 3 = [65, 66] ∧
    tailSpecReplace (fun p => if p = "t" then some [65, 255, 66] else none) "t" 3
      = [65, 0xFFFD, 66] ∧
    tail (fun p => if p = "t" then some [65, 255, 66] else none) "t" 3
      ≠ tailSpecReplace (fun p => if p = "t" then some [65, 255, 66] else none) "t" 3 := by
  exact ⟨by decide, by decide, by decide⟩

/-- C6 (amended: invalid byte sequences are dropped, not replaced):
`tail` returns the empty result for a non-positive budget, an empty path,
or a missing/unreadable file; otherwise it depends only on the last `n`
bytes of the file, returns at most `n` decoded characters, and matches the
spec's concrete examples. -/
theorem tail_spec :
    (∀ fs path (n : Int), path = "" ∨ n ≤ 0 → tail fs path n = []) ∧
    (∀ fs path (n : Int), fs path = none → tail fs path n = []) ∧
    (∀ fs path (n : Int), (tail fs path n).length ≤ n.toNat) ∧
    (∀ (fs fs' : String → Option (List Nat)) path (n : Int) (bytes bytes' : List Nat),
      fs path = some bytes → fs' path = some bytes' →
      takeLast n.toNat bytes = takeLast n.toNat bytes' →
      tail fs path n = tail fs' path n) ∧
    tail (fun p => if p = "t" then some [48, 49, 50, 51, 52, 53, 54, 55, 56, 57] else none)
      "t" 5 = [53, 54, 55, 56, 57] ∧
    tail (fun p => if p = "t" then some [48, 49, 50, 51, 52, 53, 54, 55, 56, 57] else none)
      "t" 0 = [] := by
  refine ⟨?_, ?_, ?_, ?_, by decide, by decide⟩
  · intro fs path n h
    unfold tail
    rw [if_pos h]
  · intro fs path n h
    unfold tail
    by_cases hc : path = "" ∨ n ≤ 0
    · rw [if_pos hc]
    · rw [if_neg hc, h]
  · intro fs path n
    unfold tail
    by_cases hc : path = "" ∨ n ≤ 0
    · rw [if_pos hc]; simp
    · rw [if_neg hc]
      cases fs path with
      | none => simp
      | some bytes => simp [takeLast, List.length_drop]; omega
  · intro fs fs' path n bytes bytes' h1 h2 h3
    unfold tail
    by_cases hc : path = "" ∨ n ≤ 0
    · rw [if_pos hc, if_pos hc]
    · rw [if_neg hc, if_neg hc, h1, h2]
      show takeLast n.toNat (pyDecodeUtf8Ignore (takeLast n.toNat bytes))
        = takeLast n.toNat (pyDecodeUtf8Ignore (takeLast n.toNat bytes'))
      rw [h3]

/-- Closed instance of the hypothesis-bearing conjuncts of C6: the tail of
a budget-5 read depends only on the last five bytes. -/
theorem tail_spec_witness :
    tail (fun p => if p = "t" then some [99, 99, 53, 54, 55, 56, 57] else none) "t" 5
      = tail (fun p => if p = "t" then some [48, 49, 50, 51, 52, 53, 54, 55, 56, 57] else none)
          "t" 5 :=
  tail_spec.2.2.2.1 _ _ "t" 5 [99, 99, 53, 54, 55, 56, 57]
    [48, 49, 50, 51, 52, 53, 54, 55, 56, 57] (by decide) (by decide) (by decide)

/-! ## C7: compiled-program fallback chain -/

/-- C7: `try_load_compiled` returns the program of the first candidate that
exists and loads; every load failure (missing or corrupt) moves on to the
next candidate; with no loadable candidate it returns nothing.  On the
hook's candidate triple: with the configured and project candidates not
loadable, the user-global one loads; with the configured candidate not
loadable and the project one loadable, the project one wins. -/
theorem try_load_compiled_fallback :
    (∀ (α : Type) (fs : String → LoadResult α) (ps : List String),
      (∀ p ∈ ps, ∀ q, fs p ≠ LoadResult.ok q) → try_load_compiled fs ps = none) ∧
    (∀ (α : Type) (fs : String → LoadResult α) (ps1 : List String) (p : String) (q : α)
        (ps2 : List String),
      (∀ r ∈ ps1, ∀ x, fs r ≠ LoadResult.ok x) → fs p = LoadResult.ok q →
      try_load_compiled fs (ps1 ++ p :: ps2) = some q) ∧
    (∀ (α : Type) (fs : String → LoadResult α) (cfgp proj home : String) (g : α),
      (∀ x, fs cfgp ≠ LoadResult.ok x) →
      (∀ x, fs (proj ++ "/.claude/models/approver.compiled.json") ≠ LoadResult.ok x) →
      fs (home ++ "/.claude/models/approver.compiled.json") = LoadResult.ok g →
      try_load_compiled fs (hookCandidates cfgp proj home) = some g) ∧
    (∀ (α : Type) (fs : String → LoadResult α) (cfgp proj home : String) (pq : α),
      (∀ x, fs cfgp ≠ LoadResult.ok x) →
      fs (proj ++ "/.claude/models/approver.compiled.json") = LoadResult.ok pq →
      try_load_compiled fs (hookCandidates cfgp proj home) = some pq) := by
  have skip : ∀ (α : Type) (fs : String → LoadResult α) (p : String) (ps : List String),
      (∀ q, fs p ≠ LoadResult.ok q) →
      try_load_compiled fs (p :: ps) = try_load_compiled fs ps := by
    intro α fs p ps h
    cases hp : fs p with
    | missing => simp [try_load_compiled, hp]
    | corrupt => simp [try_load_compiled, hp]
    | ok q => exact absurd hp (h q)
  have hit : ∀ (α : Type) (fs : String → LoadResult α) (p : String) (q : α) (ps : List String),
      fs p = LoadResult.ok q → try_load_compiled fs (p :: ps) = some q := by
    intro α fs p q ps h
    unfold try_load_compiled
    rw [h]
  refine ⟨?_, ?_, ?_, ?_⟩
  · intro α fs ps h
    induction ps with
    | nil => rfl
    | cons p rest ih =>
      rw [skip α fs p rest (h p (List.mem_cons_self p rest))]
      exact ih (fun r hr q => h r (List.mem_cons_of_mem p hr) q)
  · intro α fs ps1 p q ps2 h1 h2
    induction ps1 with
    | nil => exact hit α fs p q ps2 h2
    | cons r rest ih =>
      rw [List.cons_append, skip α fs r (rest ++ p :: ps2) (h1 r (List.mem_cons_self r rest))]
      exact ih (fun r' hr' x => h1 r' (List.mem_cons_of_mem r hr') x)
  · intro α fs cfgp proj home g h1 h2 h3
    unfold hookCandidates
    rw [skip α fs cfgp _ h1, skip α fs _ _ h2]
    exact hit α fs _ g [] h3
  · intro α fs cfgp proj home pq h1 h2
    unfold hookCandidates
    rw [skip α fs cfgp _ h1]
    exact hit α fs _ pq _ h2

/-- Closed instance of C7: only the user-global compiled file is present
and loadable, so it is the one loaded. -/
theorem try_load_compiled_fallback_witness :
    try_load_compiled
      (fun s => if s = "/home/u/.claude/models/approver.compiled.json"
                then LoadResult.ok 7 else LoadResult.missing)
      (hookCandidates "/p/.claude/models/approver.compiled.json" "/p" "/home/u") = some 7 :=
  try_load_compiled_fallback.2.2.1 Nat _ "/p/.claude/models/approver.compiled.json" "/p" "/home/u" 7
    (fun x h => by rw [if_neg (by decide)] at h; exact LoadResult.noConfusion h)
    (fun x h => by rw [if_neg (by decide)] at h; exact LoadResult.noConfusion h)
    (by rw [if_pos (by decide)])

/-! ## C10: falsy configuration values resolve to defaults -/

theorem pyOr_obj_obj (co : JObj) : pyOr (JVal.obj co) (JVal.obj []) = JVal.obj co := by
  cases co <;> simp [pyOr, pyTruthy]

/-- C10: `get_dspy_config` treats falsy present values like missing ones:
a falsy (or absent) `dspyApprover` section resolves entirely to defaults;
with a dict section, an absent/null/empty `model` resolves to the default
model, an absent/null/empty `compiledModelPath` to the default path with
the project-root placeholder substituted, and an absent or falsy
`historyBytes` to 0. -/
theorem get_dspy_config_falsy_defaults :
    (∀ (settings : JObj) (root : String),
      (jget settings "dspyApprover" = none ∨ pyTruthy (jgetd settings "dspyApprover") = false) →
      get_dspy_config settings root =
        some { model := JVal.str DEFAULT_MODEL, historyBytes := 0,
               compiledModelPath := _resolve DEFAULT_COMPILED_PATH root,
               promptModel := JVal.null, evalModel := JVal.null,
               reflectionModel := JVal.null }) ∧
    (∀ (settings : JObj) (root : String) (co : JObj) (cfg : DspyConfig),
      jget settings "dspyApprover" = some (JVal.obj co) →
      get_dspy_config settings root = some cfg →
      ((jget co "model" = none ∨ jget co "model" = some JVal.null ∨
          jget co "model" = some (JVal.str "")) → cfg.model = JVal.str DEFAULT_MODEL) ∧
      ((jget co "compiledModelPath" = none ∨ jget co "compiledModelPath" = some JVal.null ∨
          jget co "compiledModelPath" = some (JVal.str "")) →
        cfg.compiledModelPath = _resolve DEFAULT_COMPILED_PATH root) ∧
      ((jget co "historyBytes" = none ∨ pyTruthy (jgetd co "historyBytes") = false) →
        cfg.historyBytes = 0)) := by
  constructor
  · intro settings root h
    have hor : pyOr (jgetd settings "dspyApprover") (JVal.obj []) = JVal.obj [] := by
      rcases h with h | h
      · simp [jgetd, h, pyOr, pyTruthy]
      · simp [pyOr, h]
    unfold get_dspy_config
    rw [hor]
    rfl
  · intro settings root co cfg hco h2
    have hor : pyOr (jgetd settings "dspyApprover") (JVal.obj []) = JVal.obj co := by
      rw [jgetd, hco, Option.getD_some, pyOr_obj_obj]
    unfold get_dspy_config at h2
    rw [hor] at h2
    dsimp only at h2
    cases hint : pyIntOpt (pyOr (jgetd co "historyBytes") (JVal.num DEFAULT_HISTORY_BYTES)) with
    | none => rw [hint] at h2; exact absurd h2 (by simp)
    | some hb =>
      rw [hint] at h2
      cases hcmp : pyOr (jgetd co "compiledModelPath") (JVal.str DEFAULT_COMPILED_PATH) with
      | str cmpRaw =>
        rw [hcmp] at h2
        simp only [Option.some.injEq] at h2
        refine ⟨?_, ?_, ?_⟩
        · intro hm
          have : pyOr (jgetd co "model") (JVal.str DEFAULT_MODEL) = JVal.str DEFAULT_MODEL := by
            rcases hm with hm | hm | hm <;> simp [jgetd, hm, pyOr, pyTruthy]
          rw [← h2, this]
        · intro hc
          have : pyOr (jgetd co "compiledModelPath") (JVal.str DEFAULT_COMPILED_PATH)
              = JVal.str DEFAULT_COMPILED_PATH := by
            rcases hc with hc | hc | hc <;> simp [jgetd, hc, pyOr, pyTruthy]
          rw [this] at hcmp
          cases hcmp
          rw [← h2]
        · intro hh
          have : pyOr (jgetd co "historyBytes") (JVal.num DEFAULT_HISTORY_BYTES)
              = JVal.num DEFAULT_HISTORY_BYTES := by
            rcases hh with hh | hh
            · simp [jgetd, hh, pyOr, pyTruthy]
            · simp [pyOr, hh]
          rw [this] at hint
          have h0 : hb = 0 := by
            simp [pyIntOpt, DEFAULT_HISTORY_BYTES] at hint
            omega
          rw [← h2, h0]
      | null => rw [hcmp] at h2; exact absurd h2 (by simp)
      | bool b => rw [hcmp] at h2; exact absurd h2 (by simp)
      | num n => rw [hcmp] at h2; exact absurd h2 (by simp)
      | arr l => rw [hcmp] at h2; exact absurd h2 (by simp)
      | obj o => rw [hcmp] at h2; exact absurd h2 (by simp)

/-- Closed instance of C10: a section holding a null model, empty compiled
path and historyBytes 0 resolves to the default model, default substituted
path, and 0. -/
theorem get_dspy_config_falsy_defaults_witness :
    ∃ cfg, get_dspy_config
        [("dspyApprover", JVal.obj
          [("model", JVal.null), ("compiledModelPath", JVal.str ""),
           ("historyBytes", JVal.num 0)])] "/proj" = some cfg ∧
      cfg.model = JVal.str DEFAULT_MODEL ∧
      cfg.compiledModelPath = _resolve DEFAULT_COMPILED_PATH "/proj" ∧
      cfg.historyBytes = 0 := by
  refine ⟨_, rfl, ?_⟩
  have h := get_dspy_config_falsy_defaults.2
    [("dspyApprover", JVal.obj
      [("model", JVal.null), ("compiledModelPath", JVal.str ""),
       ("historyBytes", JVal.num 0)])] "/proj"
    [("model", JVal.null), ("compiledModelPath", JVal.str ""), ("historyBytes", JVal.num 0)]
    _ (by rfl) rfl
  exact ⟨h.1 (by right; left; rfl), h.2.1 (by right; right; rfl), h.2.2 (by right; rfl)⟩

/-! ## C1: settings-chain precedence -/

/-- Core of the model resolution: with a dict `dspyApprover` section, the
resolved model is the section's `model` value when truthy, else the default. -/
theorem get_dspy_config_model_eq (settings : JObj) (root : String) (dl : JObj)
    (cfg : DspyConfig) (hco : jget settings "dspyApprover" = some (JVal.obj dl))
    (h2 : get_dspy_config settings root = some cfg) :
    cfg.model = pyOr (jgetd dl "model") (JVal.str DEFAULT_MODEL) := by
  have hor : pyOr (jgetd settings "dspyApprover") (JVal.obj []) = JVal.obj dl := by
    rw [jgetd, hco, Option.getD_some, pyOr_obj_obj]
  unfold get_dspy_config at h2
  rw [hor] at h2
  dsimp only at h2
  cases hint : pyIntOpt (pyOr (jgetd dl "historyBytes") (JVal.num DEFAULT_HISTORY_BYTES)) with
  | none => rw [hint] at h2; exact absurd h2 (by simp)
  | some hb =>
    rw [hint] at h2
    cases hcmp : pyOr (jgetd dl "compiledModelPath") (JVal.str DEFAULT_COMPILED_PATH) with
    | str cmpRaw =>
      rw [hcmp] at h2
      simp only [Option.some.injEq] at h2
      rw [← h2]
    | null => rw [hcmp] at h2; exact absurd h2 (by simp)
    | bool b => rw [hcmp] at h2; exact absurd h2 (by simp)
    | num n => rw [hcmp] at h2; exact absurd h2 (by simp)
    | arr l => rw [hcmp] at h2; exact absurd h2 (by simp)
    | obj o => rw [hcmp] at h2; exact absurd h2 (by simp)

/-- C1: `load_settings_chain` is first-match-wins over the three parse
results with the project-shared fallback, and consequently the resolved
`dspyApprover.model` comes from the project-local file when all three are
present (with different model values), and from the project-shared file
when only it and the global file are present. -/
theorem load_settings_chain_precedence :
    (∀ (l s g : Option JVal) (o : JObj),
      l = some (JVal.obj o) → load_settings_chain l s g = (o, PathId.localPath)) ∧
    (∀ (l s g : Option JVal) (o : JObj),
      isDictOpt l = false → s = some (JVal.obj o) →
      load_settings_chain l s g = (o, PathId.sharedPath)) ∧
    (∀ (l s g : Option JVal) (o : JObj),
      isDictOpt l = false → isDictOpt s = false → g = some (JVal.obj o) →
      load_settings_chain l s g = (o, PathId.globalPath)) ∧
    (∀ (l s g : Option JVal),
      isDictOpt l = false → isDictOpt s = false → isDictOpt g = false →
      load_settings_chain l s g = ([], PathId.sharedPath)) ∧
    (∀ (lo so go dl ds dg : JObj) (root m1 m2 m3 : String) (cfg : DspyConfig),
      jget lo "dspyApprover" = some (JVal.obj dl) → jget dl "model" = some (JVal.str m1) →
      jget so "dspyApprover" = some (JVal.obj ds) → jget ds "model" = some (JVal.str m2) →
      jget go "dspyApprover" = some (JVal.obj dg) → jget dg "model" = some (JVal.str m3) →
      m1 ≠ "" → m1 ≠ m2 → m2 ≠ m3 → m1 ≠ m3 →
      get_dspy_config
        (load_settings_chain (some (JVal.obj lo)) (some (JVal.obj so)) (some (JVal.obj go))).1
        root = some cfg →
      cfg.model = JVal.str m1) ∧
    (∀ (so go ds : JObj) (root m2 : String) (cfg : DspyConfig),
      jget so "dspyApprover" = some (JVal.obj ds) → jget ds "model" = some (JVal.str m2) →
      m2 ≠ "" →
      get_dspy_config (load_settings_chain none (some (JVal.obj so)) (some (JVal.obj go))).1
        root = some cfg →
      cfg.model = JVal.str m2) := by
  refine ⟨?_, ?_, ?_, ?_, ?_, ?_⟩
  · intro l s g o h
    rw [h]
    rfl
  · intro l s g o hl h
    rw [h]
    unfold load_settings_chain
    cases l with
    | none => rfl
    | some w => cases w <;> simp [isDictOpt] at hl ⊢
  · intro l s g o hl hs h
    rw [h]
    unfold load_settings_chain
    cases l with
    | none =>
      cases s with
      | none => rfl
      | some w => cases w <;> simp [isDictOpt] at hs ⊢
    | some w =>
      cases w <;> simp [isDictOpt] at hl ⊢ <;>
        (cases s with
         | none => rfl
         | some w' => cases w' <;> simp [isDictOpt] at hs ⊢)
  · intro l s g hl hs hg
    unfold load_settings_chain
    cases l with
    | none =>
      cases s with
      | none =>
        cases g with
        | none => rfl
        | some w => cases w <;> simp [isDictOpt] at hg ⊢
      | some w => cases w <;> simp [isDictOpt] at hs ⊢ <;>
          (cases g with
           | none => rfl
           | some w' => cases w' <;> simp [isDictOpt] at hg ⊢)
    | some w =>
      cases w <;> simp [isDictOpt] at hl ⊢ <;>
        (cases s with
         | none =>
           cases g with
           | none => rfl
           | some w' => cases w' <;> simp [isDictOpt] at hg ⊢
         | some w' => cases w' <;> simp [isDictOpt] at hs ⊢ <;>
             (cases g with
              | none => rfl
              | some w'' => cases w'' <;> simp [isDictOpt] at hg ⊢))
  · intro lo so go dl ds dg root m1 m2 m3 cfg hl1 hl2 _ _ _ _ hm1 _ _ _ hcfg
    have hchain : (load_settings_chain (some (JVal.obj lo)) (some (JVal.obj so))
        (some (JVal.obj go))).1 = lo := rfl
    rw [hchain] at hcfg
    have := get_dspy_config_model_eq lo root dl cfg hl1 hcfg
    rw [this, jgetd, hl2, Option.getD_some]
    simp [pyOr, pyTruthy, hm1]
  · intro so go ds root m2 cfg hs1 hs2 hm2 hcfg
    have hchain : (load_settings_chain none (some (JVal.obj so)) (some (JVal.obj go))).1
        = so := rfl
    rw [hchain] at hcfg
    have := get_dspy_config_model_eq so root ds cfg hs1 hcfg
    rw [this, jgetd, hs2, Option.getD_some]
    simp [pyOr, pyTruthy, hm2]

/-- Closed instance of C1: all three files present with models "ml", "ms",
"mg" resolve to the project-local "ml"; without the local file they
resolve to the project-shared "ms". -/
theorem load_settings_chain_precedence_witness :
    (∃ cfg, get_dspy_config
        (load_settings_chain (some (JVal.obj [("dspyApprover", JVal.obj [("model", JVal.str "ml")])]))
          (some (JVal.obj [("dspyApprover", JVal.obj [("model", JVal.str "ms")])]))
          (some (JVal.obj [("dspyApprover", JVal.obj [("model", JVal.str "mg")])]))).1 "/proj"
        = some cfg ∧ cfg.model = JVal.str "ml") ∧
    (∃ cfg, get_dspy_config
        (load_settings_chain none
          (some (JVal.obj [("dspyApprover", JVal.obj [("model", JVal.str "ms")])]))
          (some (JVal.obj [("dspyApprover", JVal.obj [("model", JVal.str "mg")])]))).1 "/proj"
        = some cfg ∧ cfg.model = JVal.str "ms") := by
  constructor
  · refine ⟨_, rfl, ?_⟩
    exact load_settings_chain_precedence.2.2.2.2.1
      [("dspyApprover", JVal.obj [("model", JVal.str "ml")])]
      [("dspyApprover", JVal.obj [("model", JVal.str "ms")])]
      [("dspyApprover", JVal.obj [("model", JVal.str "mg")])]
      [("model", JVal.str "ml")] [("model", JVal.str "ms")] [("model", JVal.str "mg")]
      "/proj" "ml" "ms" "mg" _ rfl rfl rfl rfl rfl rfl (by decide) (by decide) (by decide)
      (by decide) rfl
  · refine ⟨_, rfl, ?_⟩
    exact load_settings_chain_precedence.2.2.2.2.2
      [("dspyApprover", JVal.obj [("model", JVal.str "ms")])]
      [("dspyApprover", JVal.obj [("model", JVal.str "mg")])]
      [("model", JVal.str "ms")] "/proj" "ms" _ rfl rfl (by decide) rfl

/-! ## C8: training-record label rejection -/

/-- C8: every example kept by `read_jsonl` carries a valid decision label;
unparsable lines are skipped; the label is taken from `label` or the legacy
`decision` field, lower-cased and trimmed; and the spec's two-line file
(one "allow", one "maybe") loads exactly one example. -/
theorem read_jsonl_label_rejection :
    (∀ (lines : List PyLine) (policy : String) (hb : Int)
        (fs : String → Option (List Nat)) (exs : List TrainExample),
      read_jsonl lines policy hb fs = some exs →
      ∀ ex ∈ exs, VALID_DECISIONS.contains ex.decision = true) ∧
    (∀ (lines : List PyLine) (policy : String) (hb : Int) (fs : String → Option (List Nat)),
      read_jsonl (PyLine.bad :: lines) policy hb fs = read_jsonl lines policy hb fs) ∧
    (∀ (o : JObj) (policy : String) (hb : Int) (fs : String → Option (List Nat)) (s : String),
      jget o "label" = none → jget o "decision" = some (JVal.str s) →
      ∃ ex, _normalize o policy hb fs = some ex ∧ ex.decision = pyLower (pyStrip s)) ∧
    (read_jsonl
        [PyLine.val (JVal.obj [("tool_name", JVal.str "Bash"), ("label", JVal.str "allow")]),
         PyLine.val (JVal.obj [("tool_name", JVal.str "Bash"), ("label", JVal.str "maybe")])]
        "pol" 0 (fun _ => none)).map (fun l => l.map (fun e => e.decision))
      = some ["allow"] := by
  refine ⟨?_, ?_, ?_, by decide⟩
  · intro lines policy hb fs
    induction lines with
    | nil =>
      intro exs h
      cases h
      intro ex hex
      cases hex
    | cons line rest ih =>
      intro exs h
      cases line with
      | blank => exact ih exs h
      | bad => exact ih exs h
      | val v =>
        cases v with
        | obj o =>
          have h' : (match _normalize o policy hb fs with
            | none => none
            | some ex =>
              if VALID_DECISIONS.contains ex.decision then
                (read_jsonl rest policy hb fs).map (fun l => ex :: l)
              else read_jsonl rest policy hb fs) = some exs := h
          cases hn : _normalize o policy hb fs with
          | none => rw [hn] at h'; exact Option.noConfusion h'
          | some ex' =>
            rw [hn] at h'
            dsimp only at h'
            by_cases hc : VALID_DECISIONS.contains ex'.decision = true
            · rw [if_pos hc] at h'
              rcases Option.map_eq_some'.mp h' with ⟨l', hl', rfl⟩
              intro ex hex
              rcases List.mem_cons.mp hex with rfl | hmem
              · exact hc
              · exact ih l' hl' ex hmem
            · rw [if_neg hc] at h'
              exact ih exs h'
        | null => exact Option.noConfusion (h : (none : Option (List TrainExample)) = some exs)
        | bool b => exact Option.noConfusion (h : (none : Option (List TrainExample)) = some exs)
        | num n => exact Option.noConfusion (h : (none : Option (List TrainExample)) = some exs)
        | str s => exact Option.noConfusion (h : (none : Option (List TrainExample)) = some exs)
        | arr l => exact Option.noConfusion (h : (none : Option (List TrainExample)) = some exs)
  · intro lines policy hb fs
    rfl
  · intro o policy hb fs s h1 h2
    have hlab : pyOr (jgetd o "label") (pyOr (jgetd o "decision") (JVal.str ""))
        = JVal.str s := by
      rw [jgetd, h1, jgetd, h2]
      by_cases hs : s = ""
      · subst hs; simp [pyOr, pyTruthy]
      · simp [pyOr, pyTruthy, hs]
    refine ⟨{ policy := policy,
              tool := pyOr (jgetd o "tool_name") (pyOr (jgetd o "tool") (JVal.str "")),
              tool_input_json := _normalize_tool_input o,
              history_tail := _read_history o hb fs,
              decision := pyLower (pyStrip s) }, ?_, rfl⟩
    unfold _normalize
    rw [hlab]

/-- Closed instance of the hypothesis-bearing conjuncts of C8: a record
with only a legacy `decision` field "Deny" normalizes to label "deny". -/
theorem read_jsonl_label_rejection_witness :
    ∃ ex, _normalize [("decision", JVal.str "Deny")] "pol" 0 (fun _ => none) = some ex ∧
      ex.decision = pyLower (pyStrip "Deny") :=
  read_jsonl_label_rejection.2.2.1 [("decision", JVal.str "Deny")] "pol" 0 (fun _ => none)
    "Deny" rfl rfl

/-! ## Scan lemmas for `merge_pretooluse_hook` -/

theorem find?_append_false {α : Type} (p : α → Bool) (l1 l2 : List α)
    (h : ∀ x ∈ l1, p x = false) : List.find? p (l1 ++ l2) = List.find? p l2 := by
  induction l1 with
  | nil => rfl
  | cons a rest ih =>
    rw [List.cons_append, List.find?_cons_of_neg _ (by simp [h a (List.mem_cons_self a rest)]),
      ih (fun x hx => h x (List.mem_cons_of_mem a hx))]

theorem first_true_decomp {α : Type} (p : α → Bool) (l : List α) (h : l.any p = true) :
    ∃ P x S, l = P ++ x :: S ∧ (∀ y ∈ P, p y = false) ∧ p x = true := by
  induction l with
  | nil => simp at h
  | cons a rest ih =>
    by_cases ha : p a = true
    · refine ⟨[], a, rest, rfl, ?_, ha⟩
      intro y hy
      exact absurd hy (List.not_mem_nil y)
    · have hrest : rest.any p = true := by
        rcases List.any_eq_true.mp h with ⟨x, hx, hpx⟩
        rcases List.mem_cons.mp hx with rfl | hx'
        · exact absurd hpx ha
        · exact List.any_eq_true.mpr ⟨x, hx', hpx⟩
      rcases ih hrest with ⟨P, x, S, hdec, hP, hx⟩
      refine ⟨a :: P, x, S, by rw [hdec, List.cons_append], ?_, hx⟩
      intro y hy
      rcases List.mem_cons.mp hy with rfl | hy'
      · simpa using ha
      · exact hP y hy'

theorem specsUpdateFirst_cons_skip (c : String) (t : Int) (sp : JVal) (rest : List JVal)
    (h : specIsMarker sp = false) :
    specsUpdateFirst c t (sp :: rest) = (specsUpdateFirst c t rest).map (fun r => sp :: r) := by
  cases sp with
  | obj so =>
    have hm : strContains MARKER (pyStr ((jget so "command").getD (JVal.str ""))) = false := by
      simpa [specIsMarker] using h
    show (if strContains MARKER (pyStr ((jget so "command").getD (JVal.str ""))) then _ else _) = _
    rw [if_neg (by simp [hm])]
  | null => rfl
  | bool b => rfl
  | num n => rfl
  | str s => rfl
  | arr l => rfl

theorem specsUpdateFirst_none (c : String) (t : Int) (l : List JVal)
    (h : ∀ sp ∈ l, specIsMarker sp = false) : specsUpdateFirst c t l = none := by
  induction l with
  | nil => rfl
  | cons sp rest ih =>
    rw [specsUpdateFirst_cons_skip c t sp rest (h sp (List.mem_cons_self sp rest)),
      ih (fun x hx => h x (List.mem_cons_of_mem sp hx))]
    rfl

theorem specsUpdateFirst_found (c : String) (t : Int) (P : List JVal) (so : JObj)
    (S : List JVal) (hP : ∀ sp ∈ P, specIsMarker sp = false)
    (hso : specIsMarker (JVal.obj so) = true) :
    specsUpdateFirst c t (P ++ JVal.obj so :: S) =
      some (P ++ JVal.obj (jset (jset so "command" (JVal.str c)) "timeout" (JVal.num t)) :: S) := by
  induction P with
  | nil =>
    have hm : strContains MARKER (pyStr ((jget so "command").getD (JVal.str ""))) = true := by
      simpa [specIsMarker] using hso
    show (if strContains MARKER (pyStr ((jget so "command").getD (JVal.str ""))) then _ else _) = _
    rw [if_pos (by simp [hm]), List.nil_append]
  | cons sp rest ih =>
    rw [List.cons_append,
      specsUpdateFirst_cons_skip c t sp _ (hP sp (List.mem_cons_self sp rest)),
      ih (fun x hx => hP x (List.mem_cons_of_mem sp hx))]
    rfl

theorem scanGroups_cons_obj_eq (c m : String) (t : Int) (ho : JObj) (B : List JVal) :
    scanGroups c m t (JVal.obj ho :: B) =
      match pyOr (jgetd ho "hooks") (JVal.arr []) with
      | JVal.arr specs =>
        (match specsUpdateFirst c t specs with
         | some specs2 =>
           ScanResult.found
             (JVal.obj (jset (jset ho "matcher" (JVal.str m)) "hooks" (JVal.arr specs2)) :: B)
         | none =>
           match scanGroups c m t B with
           | ScanResult.found l => ScanResult.found (JVal.obj ho :: l)
           | r => r)
      | JVal.str _ =>
        (match scanGroups c m t B with
         | ScanResult.found l => ScanResult.found (JVal.obj ho :: l)
         | r => r)
      | JVal.obj _ =>
        (match scanGroups c m t B with
         | ScanResult.found l => ScanResult.found (JVal.obj ho :: l)
         | r => r)
      | _ => ScanResult.raise := rfl

theorem updGroup_obj_eq (c m : String) (t : Int) (ho : JObj) :
    updGroup c m t (JVal.obj ho) =
      match pyOr (jgetd ho "hooks") (JVal.arr []) with
      | JVal.arr specs =>
        (match specsUpdateFirst c t specs with
         | some specs2 =>
           JVal.obj (jset (jset ho "matcher" (JVal.str m)) "hooks" (JVal.arr specs2))
         | none => JVal.obj ho)
      | _ => JVal.obj ho := rfl

theorem scanGroups_cons_marker (c m : String) (t : Int) (g : JVal) (B : List JVal)
    (h : groupIsMarker g = true) :
    scanGroups c m t (g :: B) = ScanResult.found (updGroup c m t g :: B) := by
  cases g with
  | obj ho =>
    unfold groupIsMarker at h
    dsimp only at h
    cases hpo : pyOr (jgetd ho "hooks") (JVal.arr []) with
    | arr specs =>
      rw [hpo] at h
      dsimp only at h
      rcases first_true_decomp _ _ h with ⟨P, x, S, hdec, hP, hx⟩
      obtain ⟨so, rfl⟩ : ∃ so, x = JVal.obj so := by
        cases x with
        | obj so => exact ⟨so, rfl⟩
        | null => simp [specIsMarker] at hx
        | bool b => simp [specIsMarker] at hx
        | num n => simp [specIsMarker] at hx
        | str s => simp [specIsMarker] at hx
        | arr l => simp [specIsMarker] at hx
      have hupd : specsUpdateFirst c t specs =
          some (P ++ JVal.obj (jset (jset so "command" (JVal.str c)) "timeout" (JVal.num t)) :: S) := by
        rw [hdec]
        exact specsUpdateFirst_found c t P so S hP hx
      rw [scanGroups_cons_obj_eq, updGroup_obj_eq, hpo]
      dsimp only
      rw [hupd]
    | null => rw [hpo] at h; exact Bool.noConfusion h
    | bool b => rw [hpo] at h; exact Bool.noConfusion h
    | num n => rw [hpo] at h; exact Bool.noConfusion h
    | str s => rw [hpo] at h; exact Bool.noConfusion h
    | obj o => rw [hpo] at h; exact Bool.noConfusion h
  | null => simp [groupIsMarker] at h
  | bool b => simp [groupIsMarker] at h
  | num n => simp [groupIsMarker] at h
  | str s => simp [groupIsMarker] at h
  | arr l => simp [groupIsMarker] at h

theorem scanGroups_cons_skip (c m : String) (t : Int) (h : JVal) (l : List JVal)
    (hr : groupRaises h = false) (hm : groupIsMarker h = false) :
    scanGroups c m t (h :: l) =
      match scanGroups c m t l with
      | ScanResult.found l' => ScanResult.found (h :: l')
      | r => r := by
  cases h with
  | obj ho =>
    unfold groupRaises at hr
    unfold groupIsMarker at hm
    dsimp only at hr hm
    cases hpo : pyOr (jgetd ho "hooks") (JVal.arr []) with
    | arr specs =>
      rw [hpo] at hm
      dsimp only at hm
      have hall : ∀ sp ∈ specs, specIsMarker sp = false := by
        intro sp hsp
        by_contra hc
        have : specs.any specIsMarker = true :=
          List.any_eq_true.mpr ⟨sp, hsp, by simpa using hc⟩
        rw [this] at hm
        exact Bool.noConfusion hm
      rw [scanGroups_cons_obj_eq, hpo]
      dsimp only
      rw [specsUpdateFirst_none c t specs hall]
    | str s =>
      rw [scanGroups_cons_obj_eq, hpo]
    | obj o =>
      rw [scanGroups_cons_obj_eq, hpo]
    | null => rw [hpo] at hr; exact Bool.noConfusion hr
    | bool b => rw [hpo] at hr; exact Bool.noConfusion hr
    | num n => rw [hpo] at hr; exact Bool.noConfusion hr
  | null => rfl
  | bool b => rfl
  | num n => rfl
  | str s => rfl
  | arr l' => rfl

theorem scanGroups_append_skip (c m : String) (t : Int) (A l : List JVal)
    (hA : ∀ h ∈ A, groupRaises h = false ∧ groupIsMarker h = false) :
    scanGroups c m t (A ++ l) =
      match scanGroups c m t l with
      | ScanResult.found l' => ScanResult.found (A ++ l')
      | r => r := by
  induction A with
  | nil =>
    cases hs : scanGroups c m t l <;> simp [hs]
  | cons h rest ih =>
    have hh := hA h (List.mem_cons_self h rest)
    rw [List.cons_append, scanGroups_cons_skip c m t h (rest ++ l) hh.1 hh.2,
      ih (fun x hx => hA x (List.mem_cons_of_mem h hx))]
    cases hs : scanGroups c m t l <;> simp [hs]

theorem scanGroups_notFound (c m : String) (t : Int) (l : List JVal)
    (h : ∀ x ∈ l, groupRaises x = false ∧ groupIsMarker x = false) :
    scanGroups c m t l = ScanResult.notFound := by
  have := scanGroups_append_skip c m t l [] h
  simpa using this

theorem scanGroups_found (c m : String) (t : Int) (A : List JVal) (g : JVal) (B : List JVal)
    (hA : ∀ h ∈ A, groupRaises h = false ∧ groupIsMarker h = false)
    (hg : groupIsMarker g = true) :
    scanGroups c m t (A ++ g :: B) = ScanResult.found (A ++ updGroup c m t g :: B) := by
  rw [scanGroups_append_skip c m t A (g :: B) hA, scanGroups_cons_marker c m t g B hg]

theorem updGroup_marker_spec (c m : String) (t : Int) (g : JVal)
    (hg : groupIsMarker g = true) (hc : strContains MARKER c = true) :
    groupIsMarker (updGroup c m t g) = true ∧ groupHolds (updGroup c m t g) c m t := by
  cases g with
  | obj ho =>
    unfold groupIsMarker at hg
    dsimp only at hg
    cases hpo : pyOr (jgetd ho "hooks") (JVal.arr []) with
    | arr specs =>
      rw [hpo] at hg
      dsimp only at hg
      rcases first_true_decomp _ _ hg with ⟨P, x, S, hdec, hP, hx⟩
      obtain ⟨so, rfl⟩ : ∃ so, x = JVal.obj so := by
        cases x with
        | obj so => exact ⟨so, rfl⟩
        | null => simp [specIsMarker] at hx
        | bool b => simp [specIsMarker] at hx
        | num n => simp [specIsMarker] at hx
        | str s => simp [specIsMarker] at hx
        | arr l => simp [specIsMarker] at hx
      have hupd : specsUpdateFirst c t specs =
          some (P ++ JVal.obj (jset (jset so "command" (JVal.str c)) "timeout" (JVal.num t)) :: S) := by
        rw [hdec]
        exact specsUpdateFirst_found c t P so S hP hx
      have hg2 : updGroup c m t (JVal.obj ho) =
          JVal.obj (jset (jset ho "matcher" (JVal.str m)) "hooks"
            (JVal.arr (P ++ JVal.obj (jset (jset so "command" (JVal.str c)) "timeout" (JVal.num t)) :: S))) := by
        rw [updGroup_obj_eq, hpo]
        dsimp only
        rw [hupd]
      have hcmd : jget (jset (jset so "command" (JVal.str c)) "timeout" (JVal.num t)) "command"
          = some (JVal.str c) := by
        rw [jget_jset_ne _ _ _ _ (by decide), jget_jset_self]
      have hsm : specIsMarker (JVal.obj (jset (jset so "command" (JVal.str c)) "timeout" (JVal.num t)))
          = true := by
        unfold specIsMarker
        dsimp only
        rw [hcmd]
        exact hc
      have hhooks : pyOr (jgetd (jset (jset ho "matcher" (JVal.str m)) "hooks"
            (JVal.arr (P ++ JVal.obj (jset (jset so "command" (JVal.str c)) "timeout" (JVal.num t)) :: S)))
          "hooks") (JVal.arr [])
          = JVal.arr (P ++ JVal.obj (jset (jset so "command" (JVal.str c)) "timeout" (JVal.num t)) :: S) := by
        rw [jgetd, jget_jset_self, Option.getD_some]
        simp [pyOr, pyTruthy]
      constructor
      · rw [hg2]
        unfold groupIsMarker
        dsimp only
        rw [hhooks]
        dsimp only
        exact List.any_eq_true.mpr
          ⟨JVal.obj (jset (jset so "command" (JVal.str c)) "timeout" (JVal.num t)),
           List.mem_append_right P (List.mem_cons_self _ _), hsm⟩
      · rw [hg2]
        refine ⟨_, rfl, ?_, _, hhooks, jset (jset so "command" (JVal.str c)) "timeout" (JVal.num t), ?_, hcmd, ?_⟩
        · rw [jget_jset_ne _ _ _ _ (by decide), jget_jset_self]
        · rw [find?_append_false specIsMarker P _ hP, List.find?_cons_of_pos _ hsm]
        · rw [jget_jset_self]
    | null => rw [hpo] at hg; exact Bool.noConfusion hg
    | bool b => rw [hpo] at hg; exact Bool.noConfusion hg
    | num n => rw [hpo] at hg; exact Bool.noConfusion hg
    | str s => rw [hpo] at hg; exact Bool.noConfusion hg
    | obj o => rw [hpo] at hg; exact Bool.noConfusion hg
  | null => simp [groupIsMarker] at hg
  | bool b => simp [groupIsMarker] at hg
  | num n => simp [groupIsMarker] at hg
  | str s => simp [groupIsMarker] at hg
  | arr l => simp [groupIsMarker] at hg

theorem newHookGroup_raises (c m : String) (t : Int) :
    groupRaises (newHookGroup c m t) = false := rfl

theorem newHookGroup_marker (c m : String) (t : Int) :
    groupIsMarker (newHookGroup c m t) = strContains MARKER c := by
  have h : groupIsMarker (newHookGroup c m t) = (strContains MARKER c || false) := rfl
  rw [h, Bool.or_false]

theorem newHookGroup_holds (c m : String) (t : Int) (h : strContains MARKER c = true) :
    groupHolds (newHookGroup c m t) c m t := by
  have hsm : specIsMarker (JVal.obj
      [("type", JVal.str "command"), ("command", JVal.str c), ("timeout", JVal.num t)])
      = strContains MARKER c := rfl
  refine ⟨[("matcher", JVal.str m), ("hooks", JVal.arr [JVal.obj
      [("type", JVal.str "command"), ("command", JVal.str c), ("timeout", JVal.num t)]])],
    rfl, rfl, [JVal.obj
      [("type", JVal.str "command"), ("command", JVal.str c), ("timeout", JVal.num t)]],
    rfl, [("type", JVal.str "command"), ("command", JVal.str c), ("timeout", JVal.num t)],
    ?_, rfl, rfl⟩
  rw [List.find?_cons_of_pos _ (Eq.trans hsm h)]

theorem merge_eq_scan (settings : JObj) (l0 : List JVal) (c m : String) (t : Int)
    (h : getPreToolUse settings = some l0) :
    merge_pretooluse_hook settings c m t =
      match scanGroups c m t l0 with
      | ScanResult.raise => none
      | ScanResult.found l2 => some (setPreToolUse settings l2)
      | ScanResult.notFound => some (setPreToolUse settings (l0 ++ [newHookGroup c m t])) := by
  unfold getPreToolUse at h
  cases hh : jget settings "hooks" with
  | none =>
    rw [hh] at h
    dsimp only at h
    injection h with h
    subst h
    unfold merge_pretooluse_hook setPreToolUse
    rw [jsetdefault_of_none settings "hooks" (JVal.obj []) hh]
    rfl
  | some v =>
    cases v with
    | obj ho =>
      rw [hh] at h
      dsimp only at h
      cases hpt : jget ho "PreToolUse" with
      | none =>
        rw [hpt] at h
        dsimp only at h
        injection h with h
        subst h
        unfold merge_pretooluse_hook setPreToolUse
        rw [jsetdefault_of_get settings "hooks" (JVal.obj []) (JVal.obj ho) hh]
        dsimp only
        rw [jsetdefault_of_none ho "PreToolUse" (JVal.arr []) hpt]
      | some w =>
        cases w with
        | arr l =>
          rw [hpt] at h
          dsimp only at h
          injection h with h
          subst h
          unfold merge_pretooluse_hook setPreToolUse
          rw [jsetdefault_of_get settings "hooks" (JVal.obj []) (JVal.obj ho) hh]
          dsimp only
          rw [jsetdefault_of_get ho "PreToolUse" (JVal.arr []) (JVal.arr l) hpt]
        | null => rw [hpt] at h; dsimp only at h; exact Option.noConfusion h
        | bool b => rw [hpt] at h; dsimp only at h; exact Option.noConfusion h
        | num n => rw [hpt] at h; dsimp only at h; exact Option.noConfusion h
        | str s => rw [hpt] at h; dsimp only at h; exact Option.noConfusion h
        | obj o => rw [hpt] at h; dsimp only at h; exact Option.noConfusion h
    | null => rw [hh] at h; dsimp only at h; exact Option.noConfusion h
    | bool b => rw [hh] at h; dsimp only at h; exact Option.noConfusion h
    | num n => rw [hh] at h; dsimp only at h; exact Option.noConfusion h
    | str s => rw [hh] at h; dsimp only at h; exact Option.noConfusion h
    | arr l => rw [hh] at h; dsimp only at h; exact Option.noConfusion h

theorem getPreToolUse_set (settings : JObj) (l0 l : List JVal)
    (h : getPreToolUse settings = some l0) :
    getPreToolUse (setPreToolUse settings l) = some l := by
  unfold getPreToolUse at h
  cases hh : jget settings "hooks" with
  | none =>
    unfold setPreToolUse
    rw [jsetdefault_of_none settings "hooks" (JVal.obj []) hh]
    dsimp only
    unfold getPreToolUse
    rw [jget_jset_self]
    dsimp only
    rw [jget_jset_self]
  | some v =>
    cases v with
    | obj ho =>
      unfold setPreToolUse
      rw [jsetdefault_of_get settings "hooks" (JVal.obj []) (JVal.obj ho) hh]
      dsimp only
      unfold getPreToolUse
      rw [jget_jset_self]
      dsimp only
      rw [jget_jset_self]
    | null => rw [hh] at h; dsimp only at h; exact Option.noConfusion h
    | bool b => rw [hh] at h; dsimp only at h; exact Option.noConfusion h
    | num n => rw [hh] at h; dsimp only at h; exact Option.noConfusion h
    | str s => rw [hh] at h; dsimp only at h; exact Option.noConfusion h
    | arr l' => rw [hh] at h; dsimp only at h; exact Option.noConfusion h

theorem countP_one_decomp {α : Type} (p : α → Bool) (l : List α)
    (h : l.countP p = 1) :
    ∃ A x B, l = A ++ x :: B ∧ (∀ y ∈ A, p y = false) ∧ p x = true ∧
      (∀ y ∈ B, p y = false) := by
  induction l with
  | nil => simp at h
  | cons a rest ih =>
    by_cases ha : p a = true
    · have hz : rest.countP p = 0 := by
        rw [List.countP_cons_of_pos _ _ ha] at h
        omega
      refine ⟨[], a, rest, rfl, ?_, ha, ?_⟩
      · intro y hy; exact absurd hy (List.not_mem_nil y)
      · intro y hy
        have := List.countP_eq_zero.mp hz y hy
        simpa using this
    · rw [List.countP_cons_of_neg _ _ (by simpa using ha)] at h
      rcases ih h with ⟨A, x, B, hdec, hA, hx, hB⟩
      refine ⟨a :: A, x, B, by rw [hdec, List.cons_append], ?_, hx, hB⟩
      intro y hy
      rcases List.mem_cons.mp hy with rfl | hy'
      · simpa using ha
      · exact hA y hy'

theorem iterMerge_cons_eq (settings : JObj) (call : MergeCall) (rest : List MergeCall) :
    iterMerge settings (call :: rest) =
      match merge_pretooluse_hook settings call.command call.matcher call.timeout with
      | none => none
      | some s => iterMerge s rest := rfl

/-- Iterated registration starting from a list whose clean prefix `A` is
followed by a marker group `g`: every call updates `g` in place, and after
the last call the group holds that call's values. -/
theorem iterMerge_marker :
    ∀ (cs : List MergeCall) (hne : cs ≠ []) (settings : JObj) (A : List JVal) (g : JVal)
      (B : List JVal),
      getPreToolUse settings = some (A ++ g :: B) →
      (∀ h ∈ A, groupRaises h = false ∧ groupIsMarker h = false) →
      groupIsMarker g = true →
      (∀ call ∈ cs, strContains MARKER call.command = true) →
      ∃ s' g', iterMerge settings cs = some s' ∧
        getPreToolUse s' = some (A ++ g' :: B) ∧
        groupIsMarker g' = true ∧
        groupHolds g' (cs.getLast hne).command (cs.getLast hne).matcher
          (cs.getLast hne).timeout := by
  intro cs
  induction cs with
  | nil => intro hne; exact absurd rfl hne
  | cons call rest ih =>
    intro hne settings A g B hget hA hg hcs
    have hscan := scanGroups_found call.command call.matcher call.timeout A g B hA hg
    have hmerge := merge_eq_scan settings (A ++ g :: B) call.command call.matcher call.timeout hget
    rw [hscan] at hmerge
    have hstep : iterMerge settings (call :: rest) =
        iterMerge (setPreToolUse settings
          (A ++ updGroup call.command call.matcher call.timeout g :: B)) rest := by
      rw [iterMerge_cons_eq, hmerge]
    have hget2 := getPreToolUse_set settings (A ++ g :: B)
      (A ++ updGroup call.command call.matcher call.timeout g :: B) hget
    have hupd := updGroup_marker_spec call.command call.matcher call.timeout g hg
      (hcs call (List.mem_cons_self call rest))
    by_cases hr : rest = []
    · subst hr
      refine ⟨_, updGroup call.command call.matcher call.timeout g, ?_, hget2, hupd.1, ?_⟩
      · rw [hstep]; rfl
      · exact hupd.2
    · rcases ih hr (setPreToolUse settings
          (A ++ updGroup call.command call.matcher call.timeout g :: B)) A
          (updGroup call.command call.matcher call.timeout g) B hget2 hA hupd.1
          (fun x hx => hcs x (List.mem_cons_of_mem call hx)) with ⟨s', g', h1, h2, h3, h4⟩
      refine ⟨s', g', ?_, h2, h3, ?_⟩
      · rw [hstep]; exact h1
      · have hl : (call :: rest).getLast hne = rest.getLast hr := List.getLast_cons hr
        rw [hl]
        exact h4

/-! ## C3: idempotent hook registration -/

/-- C3 counterexample: the claim's "for every configuration" fails when the
configuration already holds two marker groups — one registration call
updates only the first, leaving two groups whose command contains the
marker. -/
theorem merge_two_marker_groups_counterexample :
    ((merge_pretooluse_hook
        [("hooks", JVal.obj [("PreToolUse", JVal.arr
          [JVal.obj [("matcher", JVal.str "X"), ("hooks", JVal.arr
            [JVal.obj [("type", JVal.str "command"),
                       ("command", JVal.str "cc-approver hook"), ("timeout", JVal.num 5)]])],
           JVal.obj [("matcher", JVal.str "Y"), ("hooks", JVal.arr
            [JVal.obj [("type", JVal.str "command"),
                       ("command", JVal.str "cc-approver hook"), ("timeout", JVal.num 7)]])]])])]
        "cc-approver hook" "Bash" 60).bind
      (fun s' => (getPreToolUse s').map (fun l' => l'.countP groupIsMarker))) = some 2 := by
  decide

/-- C3 (amended: the starting configuration's `hooks` section is absent or
a dict, its `PreToolUse` absent or a list whose dict groups have iterable
`hooks` fields and at most one of which contains the marker): N ≥ 1
registrations whose commands contain the marker leave exactly one marker
group, holding the last call's matcher/command/timeout, and preserve the
non-marker groups (malformed non-dict entries among them) verbatim. -/
theorem merge_pretooluse_hook_idempotent :
    ∀ (cs : List MergeCall) (hne : cs ≠ []) (settings : JObj) (l0 : List JVal),
      getPreToolUse settings = some l0 →
      (∀ h ∈ l0, groupRaises h = false) →
      l0.countP groupIsMarker ≤ 1 →
      (∀ call ∈ cs, strContains MARKER call.command = true) →
      ∃ s' l', iterMerge settings cs = some s' ∧ getPreToolUse s' = some l' ∧
        l'.countP groupIsMarker = 1 ∧
        (∃ g, l'.find? groupIsMarker = some g ∧
          groupHolds g (cs.getLast hne).command (cs.getLast hne).matcher
            (cs.getLast hne).timeout) ∧
        l'.filter (fun h => !groupIsMarker h) = l0.filter (fun h => !groupIsMarker h) := by
  intro cs hne settings l0 hget hraise hcount hcs
  by_cases hzero : l0.countP groupIsMarker = 0
  · have hnomark : ∀ h ∈ l0, groupIsMarker h = false := by
      intro x hx
      have := List.countP_eq_zero.mp hzero x hx
      simpa using this
    have hclean : ∀ h ∈ l0, groupRaises h = false ∧ groupIsMarker h = false :=
      fun x hx => ⟨hraise x hx, hnomark x hx⟩
    obtain ⟨call, rest, rfl⟩ : ∃ call rest, cs = call :: rest := by
      cases cs with
      | nil => exact absurd rfl hne
      | cons call rest => exact ⟨call, rest, rfl⟩
    have hscan := scanGroups_notFound call.command call.matcher call.timeout l0 hclean
    have hmerge := merge_eq_scan settings l0 call.command call.matcher call.timeout hget
    rw [hscan] at hmerge
    have hstep : iterMerge settings (call :: rest) =
        iterMerge (setPreToolUse settings
          (l0 ++ [newHookGroup call.command call.matcher call.timeout])) rest := by
      rw [iterMerge_cons_eq, hmerge]
    have hget2 := getPreToolUse_set settings l0
      (l0 ++ [newHookGroup call.command call.matcher call.timeout]) hget
    have hnewmark : groupIsMarker (newHookGroup call.command call.matcher call.timeout)
        = true := by
      rw [newHookGroup_marker]
      exact hcs call (List.mem_cons_self call rest)
    by_cases hr : rest = []
    · subst hr
      refine ⟨_, l0 ++ [newHookGroup call.command call.matcher call.timeout],
        by rw [hstep]; rfl, hget2, ?_, ?_, ?_⟩
      · rw [List.countP_append]
        rw [List.countP_eq_zero.mpr (fun x hx => by simp [hnomark x hx])] at hzero ⊢
        simp [List.countP_cons, hnewmark]
      · refine ⟨newHookGroup call.command call.matcher call.timeout, ?_, ?_⟩
        · rw [find?_append_false _ _ _ hnomark, List.find?_cons_of_pos _ hnewmark]
        · exact newHookGroup_holds call.command call.matcher call.timeout
            (hcs call (List.mem_cons_self call _))
      · rw [List.filter_append]
        simp [List.filter_cons, hnewmark]
    · rcases iterMerge_marker rest hr (setPreToolUse settings
          (l0 ++ [newHookGroup call.command call.matcher call.timeout])) l0
          (newHookGroup call.command call.matcher call.timeout) [] hget2 hclean hnewmark
          (fun x hx => hcs x (List.mem_cons_of_mem call hx)) with ⟨s', g', h1, h2, h3, h4⟩
      refine ⟨s', l0 ++ g' :: [], by rw [hstep]; exact h1, h2, ?_, ?_, ?_⟩
      · rw [List.countP_append]
        rw [hzero]
        simp [List.countP_cons, h3]
      · refine ⟨g', ?_, ?_⟩
        · rw [find?_append_false _ _ _ hnomark, List.find?_cons_of_pos _ h3]
        · have hl : (call :: rest).getLast hne = rest.getLast hr := List.getLast_cons hr
          rw [hl]
          exact h4
      · rw [List.filter_append]
        simp [h3]
  · have hone : l0.countP groupIsMarker = 1 := by omega
    rcases countP_one_decomp groupIsMarker l0 hone with ⟨A, g, B, rfl, hA, hg, hB⟩
    have hAclean : ∀ h ∈ A, groupRaises h = false ∧ groupIsMarker h = false :=
      fun x hx => ⟨hraise x (List.mem_append_left _ hx), hA x hx⟩
    rcases iterMerge_marker cs hne settings A g B hget hAclean hg hcs
      with ⟨s', g', h1, h2, h3, h4⟩
    refine ⟨s', A ++ g' :: B, h1, h2, ?_, ?_, ?_⟩
    · rw [List.countP_append, List.countP_eq_zero.mpr (fun x hx => by simp [hA x hx]),
        List.countP_cons_of_pos _ _ h3, List.countP_eq_zero.mpr (fun x hx => by simp [hB x hx])]
    · exact ⟨g', by rw [find?_append_false _ _ _ hA, List.find?_cons_of_pos _ h3], h4⟩
    · rw [List.filter_append, List.filter_append]
      simp [List.filter_cons, h3, hg]

/-- Closed instance of C3: two registrations on an empty configuration
leave exactly one marker group holding the second call's values. -/
theorem merge_pretooluse_hook_idempotent_witness :
    ∃ s' l', iterMerge []
        [⟨"cc-approver hook", "Bash", 30⟩, ⟨"cc-approver hook", "Edit|Write", 60⟩] = some s' ∧
      getPreToolUse s' = some l' ∧
      l'.countP groupIsMarker = 1 ∧
      (∃ g, l'.find? groupIsMarker = some g ∧
        groupHolds g "cc-approver hook" "Edit|Write" 60) ∧
      l'.filter (fun h => !groupIsMarker h) = ([] : List JVal).filter (fun h => !groupIsMarker h) :=
  merge_pretooluse_hook_idempotent
    [⟨"cc-approver hook", "Bash", 30⟩, ⟨"cc-approver hook", "Edit|Write", 60⟩]
    (by decide) [] [] rfl (by intro h hh; exact absurd hh (List.not_mem_nil h))
    (by decide) (by decide)

/-! ## C9: non-marker commands are appended, not deduplicated -/

/-- C9: the dedup test looks only for the marker inside existing commands;
registering commands that do not contain the marker (such as the
standalone hook script path, whose name uses underscores) appends one new
group per call: N calls produce N duplicate groups. -/
theorem merge_nonmarker_appends :
    ∀ (cs : List MergeCall) (settings : JObj) (l0 : List JVal),
      getPreToolUse settings = some l0 →
      (∀ h ∈ l0, groupRaises h = false ∧ groupIsMarker h = false) →
      (∀ call ∈ cs, strContains MARKER call.command = false) →
      ∃ s', iterMerge settings cs = some s' ∧
        getPreToolUse s' = some (l0 ++ cs.map
          (fun call => newHookGroup call.command call.matcher call.timeout)) := by
  intro cs
  induction cs with
  | nil =>
    intro settings l0 hget _ _
    exact ⟨settings, rfl, by simpa using hget⟩
  | cons call rest ih =>
    intro settings l0 hget hclean hcs
    have hscan := scanGroups_notFound call.command call.matcher call.timeout l0 hclean
    have hmerge := merge_eq_scan settings l0 call.command call.matcher call.timeout hget
    rw [hscan] at hmerge
    have hstep : iterMerge settings (call :: rest) =
        iterMerge (setPreToolUse settings
          (l0 ++ [newHookGroup call.command call.matcher call.timeout])) rest := by
      rw [iterMerge_cons_eq, hmerge]
    have hget2 := getPreToolUse_set settings l0
      (l0 ++ [newHookGroup call.command call.matcher call.timeout]) hget
    have hclean2 : ∀ h ∈ l0 ++ [newHookGroup call.command call.matcher call.timeout],
        groupRaises h = false ∧ groupIsMarker h = false := by
      intro x hx
      rcases List.mem_append.mp hx with hx' | hx'
      · exact hclean x hx'
      · rcases List.mem_singleton.mp hx' with rfl
        exact ⟨newHookGroup_raises call.command call.matcher call.timeout,
          by rw [newHookGroup_marker]; exact hcs call (List.mem_cons_self call rest)⟩
    rcases ih (setPreToolUse settings
        (l0 ++ [newHookGroup call.command call.matcher call.timeout]))
        (l0 ++ [newHookGroup call.command call.matcher call.timeout]) hget2 hclean2
        (fun x hx => hcs x (List.mem_cons_of_mem call hx)) with ⟨s', h1, h2⟩
    refine ⟨s', by rw [hstep]; exact h1, ?_⟩
    rw [h2]
    simp [List.append_assoc]

/-- Closed instance of C9: registering the standalone hook command (whose
name uses underscores, not the marker's hyphen) twice on an empty
configuration produces two duplicate groups. -/
theorem merge_nonmarker_appends_witness :
    ∃ s', iterMerge []
        [⟨"$CLAUDE_PROJECT_DIR/.claude/hooks/cc_approver_hook.py", "Bash|Edit|Write", 60⟩,
         ⟨"$CLAUDE_PROJECT_DIR/.claude/hooks/cc_approver_hook.py", "Bash|Edit|Write", 60⟩]
        = some s' ∧
      getPreToolUse s' = some
        [newHookGroup "$CLAUDE_PROJECT_DIR/.claude/hooks/cc_approver_hook.py" "Bash|Edit|Write" 60,
         newHookGroup "$CLAUDE_PROJECT_DIR/.claude/hooks/cc_approver_hook.py" "Bash|Edit|Write" 60] := by
  rcases merge_nonmarker_appends
      [⟨"$CLAUDE_PROJECT_DIR/.claude/hooks/cc_approver_hook.py", "Bash|Edit|Write", 60⟩,
       ⟨"$CLAUDE_PROJECT_DIR/.claude/hooks/cc_approver_hook.py", "Bash|Edit|Write", 60⟩]
      [] [] rfl (by intro h hh; exact absurd hh (List.not_mem_nil h)) (by decide)
    with ⟨s', h1, h2⟩
  exact ⟨s', h1, by simpa using h2⟩

/-! ## C5: unknown-field passthrough -/

theorem ensure_policy_text_frame (settings : JObj) (d : String) (s' : JObj)
    (h : ensure_policy_text settings d = some s') :
    ∀ k, k ≠ "policy" → jget s' k = jget settings k := by
  intro k hk
  unfold ensure_policy_text at h
  cases hp : jget settings "policy" with
  | none =>
    rw [jsetdefault_of_none settings "policy" (JVal.obj []) hp] at h
    dsimp only at h
    injection h with h
    subst h
    rw [jget_jset_ne _ _ _ _ hk, jget_append_single_ne _ _ _ _ hk]
  | some v =>
    rw [jsetdefault_of_get settings "policy" (JVal.obj []) v hp] at h
    cases v with
    | obj po =>
      dsimp only at h
      injection h with h
      subst h
      rw [jget_jset_ne _ _ _ _ hk]
    | null => exact Option.noConfusion h
    | bool b => exact Option.noConfusion h
    | num n => exact Option.noConfusion h
    | str s => exact Option.noConfusion h
    | arr l => exact Option.noConfusion h

theorem ensure_dspy_config_frame (settings : JObj) (model : String) (hb : Int)
    (cp optimizer auto : String) (pm em rm : Option String) (s' : JObj)
    (h : ensure_dspy_config settings model hb cp optimizer auto pm em rm = some s') :
    ∀ k, k ≠ "dspyApprover" → jget s' k = jget settings k := by
  intro k hk
  unfold ensure_dspy_config at h
  cases hp : jget settings "dspyApprover" with
  | none =>
    rw [jsetdefault_of_none settings "dspyApprover" (JVal.obj []) hp] at h
    dsimp only at h
    injection h with h
    subst h
    rw [jget_jset_ne _ _ _ _ hk, jget_append_single_ne _ _ _ _ hk]
  | some v =>
    rw [jsetdefault_of_get settings "dspyApprover" (JVal.obj []) v hp] at h
    cases v with
    | obj co =>
      dsimp only at h
      injection h with h
      subst h
      rw [jget_jset_ne _ _ _ _ hk]
    | null => exact Option.noConfusion h
    | bool b => exact Option.noConfusion h
    | num n => exact Option.noConfusion h
    | str s => exact Option.noConfusion h
    | arr l => exact Option.noConfusion h

theorem merge_pretooluse_hook_frame (settings : JObj) (c m : String) (t : Int) (s' : JObj)
    (h : merge_pretooluse_hook settings c m t = some s') :
    (∀ k, k ≠ "hooks" → jget s' k = jget settings k) ∧
    (∀ ho, jget settings "hooks" = some (JVal.obj ho) →
      ∃ ho', jget s' "hooks" = some (JVal.obj ho') ∧
        ∀ k, k ≠ "PreToolUse" → jget ho' k = jget ho k) := by
  unfold merge_pretooluse_hook at h
  cases hh : jget settings "hooks" with
  | none =>
    rw [jsetdefault_of_none settings "hooks" (JVal.obj []) hh] at h
    dsimp only at h
    rw [jsetdefault_of_none [] "PreToolUse" (JVal.arr []) rfl] at h
    dsimp only at h
    rw [show scanGroups c m t [] = ScanResult.notFound from rfl] at h
    dsimp only at h
    injection h with h
    subst h
    constructor
    · intro k hk
      rw [jget_jset_ne _ _ _ _ hk, jget_append_single_ne _ _ _ _ hk]
    · intro ho hho
      exact Option.noConfusion hho
  | some v =>
    rw [jsetdefault_of_get settings "hooks" (JVal.obj []) v hh] at h
    cases v with
    | obj ho =>
      dsimp only at h
      cases hpt : jget ho "PreToolUse" with
      | none =>
        rw [jsetdefault_of_none ho "PreToolUse" (JVal.arr []) hpt] at h
        dsimp only at h
        rw [show scanGroups c m t [] = ScanResult.notFound from rfl] at h
        dsimp only at h
        injection h with h
        subst h
        constructor
        · intro k hk
          rw [jget_jset_ne _ _ _ _ hk]
        · intro ho0 hho
          injection hho with hho
          injection hho with hho
          subst hho
          refine ⟨_, by rw [jget_jset_self], ?_⟩
          intro k hk
          rw [jget_jset_ne _ _ _ _ hk, jget_append_single_ne _ _ _ _ hk]
      | some w =>
        rw [jsetdefault_of_get ho "PreToolUse" (JVal.arr []) w hpt] at h
        cases w with
        | arr l =>
          dsimp only at h
          cases hs : scanGroups c m t l with
          | raise =>
            rw [hs] at h
            exact Option.noConfusion h
          | found l2 =>
            rw [hs] at h
            dsimp only at h
            injection h with h
            subst h
            constructor
            · intro k hk
              rw [jget_jset_ne _ _ _ _ hk]
            · intro ho0 hho
              injection hho with hho
              injection hho with hho
              subst hho
              refine ⟨_, by rw [jget_jset_self], ?_⟩
              intro k hk
              rw [jget_jset_ne _ _ _ _ hk]
          | notFound =>
            rw [hs] at h
            dsimp only at h
            injection h with h
            subst h
            constructor
            · intro k hk
              rw [jget_jset_ne _ _ _ _ hk]
            · intro ho0 hho
              injection hho with hho
              injection hho with hho
              subst hho
              refine ⟨_, by rw [jget_jset_self], ?_⟩
              intro k hk
              rw [jget_jset_ne _ _ _ _ hk]
        | null => exact Option.noConfusion h
        | bool b => exact Option.noConfusion h
        | num n => exact Option.noConfusion h
        | str s => exact Option.noConfusion h
        | obj o => exact Option.noConfusion h
    | null => exact Option.noConfusion h
    | bool b => exact Option.noConfusion h
    | num n => exact Option.noConfusion h
    | str s => exact Option.noConfusion h
    | arr l => exact Option.noConfusion h

/-- C5: the `_run_init` read-modify-write sequence (`ensure_policy_text`,
`ensure_dspy_config`, `merge_pretooluse_hook`) touches at most the
`policy` and `dspyApprover` sections and the `PreToolUse` key of `hooks`;
every other top-level section, and every other hook-event key under
`hooks`, is preserved verbatim. -/
theorem runInitSettings_frame :
    ∀ (settings : JObj) (policy_text model : String) (hb : Int) (cp : String)
      (pm em rm : Option String) (command matcher : String) (timeout : Int) (s' : JObj),
      runInitSettings settings policy_text model hb cp pm em rm command matcher timeout
        = some s' →
      (∀ k, k ≠ "policy" → k ≠ "dspyApprover" → k ≠ "hooks" →
        jget s' k = jget settings k) ∧
      (∀ ho, jget settings "hooks" = some (JVal.obj ho) →
        ∃ ho', jget s' "hooks" = some (JVal.obj ho') ∧
          ∀ k, k ≠ "PreToolUse" → jget ho' k = jget ho k) := by
  intro settings policy_text model hb cp pm em rm command matcher timeout s' h
  unfold runInitSettings at h
  cases h1 : ensure_policy_text settings policy_text with
  | none => rw [h1] at h; exact Option.noConfusion h
  | some s1 =>
    rw [h1] at h
    dsimp only [Option.bind] at h
    cases h2 : ensure_dspy_config s1 model hb cp "mipro" "light" pm em rm with
    | none => rw [h2] at h; exact Option.noConfusion h
    | some s2 =>
      rw [h2] at h
      dsimp only [Option.bind] at h
      have f1 := ensure_policy_text_frame settings policy_text s1 h1
      have f2 := ensure_dspy_config_frame s1 model hb cp "mipro" "light" pm em rm s2 h2
      have f3 := merge_pretooluse_hook_frame s2 command matcher timeout s' h
      constructor
      · intro k hk1 hk2 hk3
        rw [f3.1 k hk3, f2 k hk2, f1 k hk1]
      · intro ho hho
        have hs2 : jget s2 "hooks" = some (JVal.obj ho) := by
          rw [f2 "hooks" (by decide), f1 "hooks" (by decide), hho]
        exact f3.2 ho hs2

/-- Closed instance of C5: an unrelated top-level section and an unrelated
hook-event key survive a full initialization pass verbatim. -/
theorem runInitSettings_frame_witness :
    ∃ s', runInitSettings
        [("custom", JVal.num 42), ("hooks", JVal.obj [("PostToolUse", JVal.str "x")])]
        "pol" "m" 0 "cp" none none none "cc-approver hook" "Bash" 60 = some s' ∧
      jget s' "custom" = some (JVal.num 42) ∧
      ∃ ho', jget s' "hooks" = some (JVal.obj ho') ∧
        jget ho' "PostToolUse" = some (JVal.str "x") := by
  have h := runInitSettings_frame
    [("custom", JVal.num 42), ("hooks", JVal.obj [("PostToolUse", JVal.str "x")])]
    "pol" "m" 0 "cp" none none none "cc-approver hook" "Bash" 60 _ rfl
  refine ⟨_, rfl, ?_, ?_⟩
  · rw [h.1 "custom" (by decide) (by decide) (by decide)]
    rfl
  · rcases h.2 [("PostToolUse", JVal.str "x")] rfl with ⟨ho', hh, hk⟩
    exact ⟨ho', hh, by rw [hk "PostToolUse" (by decide)]; rfl⟩

end CcApprover
